import Mathlib

/-!
# PatternBot: pattern matching, confidence thresholds and match statistics

A shallow embedding of `src/index.js` (the pattern loader `loadQuestions` and
the `messageCreate` handler) and of `src/logger.js` (class `PatternStats`).

Modelling conventions.

* A JavaScript string is a Lean `String`, one element for each UTF-16 code unit;
  `s.length` counts the elements.
* A `Map` is the list of its key/value pairs in insertion order.  A JavaScript
  object used as a dictionary is the list of its own properties in iteration
  order: the keys that are array indices first, in ascending order, then the
  other keys in the order of their creation.  `obj[key]` also finds the
  properties inherited from `Object.prototype`; for the aggregate, whose keys
  are patterns, they are modelled (`inheritedTruthy`).  The keys of the
  `channels` and `users` dictionaries are Discord ids, decimal numerals, which
  never name an inherited property.
* Counters are integers (`Int`); the confidence, a quotient of two lengths, and
  the two thresholds `0.6` and `0.85` are rationals (`3/5` and `17/20`).  For
  contents shorter than `2 ^ 48` elements the comparison of the rounded
  quotient with the rounded threshold decides exactly as the rational one.
* What the JavaScript runtime provides (`toLowerCase`, the regular-expression
  engine) is a parameter, `JSRuntime`.
* Reads of the clock (`new Date()`, `Date.now()`) are arguments.
* Log lines are not modelled, with the exception of the `console.error` of the
  scan loop, which marks a caught exception.  The write of the snapshot by
  `saveStats`, which catches its own errors, is not modelled either: the
  aggregate is the one in memory.
* `message.reply` returns a promise; it does not throw into the caller.
-/

set_option linter.unusedVariables false

namespace PatternBot

/-! ## Dictionaries -/

/-- The own property `key` of an object, or the value `map.get(key)`; `none`
when there is none. -/
def lookup {α : Type} (key : String) : List (String × α) → Option α
  | [] => none
  | (k, v) :: rest => if k = key then some v else lookup key rest

/-- The call `map.set(key, value)`: an existing key keeps its place in the
iteration order, a new key goes to the end. -/
def assign {α : Type} (key : String) (value : α) : List (String × α) → List (String × α)
  | [] => [(key, value)]
  | (k, v) :: rest =>
    if k = key then (k, value) :: rest else (k, v) :: assign key value rest

/-- The number written by a list of decimal digits, continuing from `acc`. -/
def digitsValue (acc : Nat) (cs : List Char) : Nat :=
  cs.foldl (fun a c => a * 10 + (c.toNat - 48)) acc

/-- The array index that a property key names, if it names one: the key is the
decimal numeral, without a leading zero, of a number of at most `2 ^ 32 - 2`. -/
def arrayIndex (key : String) : Option Nat :=
  if key.toList.all Char.isDigit && !key.toList.isEmpty &&
      (key.toList.length == 1 || key.toList.head? != some '0') &&
      decide (digitsValue 0 key.toList < 4294967295) then
    some (digitsValue 0 key.toList)
  else none

/-- The place of a new property whose key is the array index `n`: after the
array indices below `n` and before every other key. -/
def insertIndexed {α : Type} (n : Nat) (key : String) (value : α) :
    List (String × α) → List (String × α)
  | [] => [(key, value)]
  | (k, v) :: rest =>
    match arrayIndex k with
    | some m =>
      if m < n then (k, v) :: insertIndexed n key value rest
      else (key, value) :: (k, v) :: rest
    | none => (key, value) :: (k, v) :: rest

/-- The assignment `obj[key] = value` on the own properties of an object: an
existing key keeps its place in the iteration order; a new key that is an array
index goes among the array indices, in ascending order; any other new key goes
to the end. -/
def objAssign {α : Type} (key : String) (value : α) (l : List (String × α)) :
    List (String × α) :=
  match lookup key l with
  | some _ => assign key value l
  | none =>
    match arrayIndex key with
    | some n => insertIndexed n key value l
    | none => assign key value l

/-! ## Data model -/

/-- One `{ name, count }` record of the `channels` or `users` breakdown. -/
structure SubEntry where
  name : String
  count : Int
deriving DecidableEq, Repr

/-- The statistics of one pattern.  `channels` and `users` are `none` when the
property is absent, which happens for an entry read by `loadStats` from a
snapshot that does not carry it (`generateReport` guards against that case with
`data.channels || {}`). -/
structure PatternEntry where
  count : Int
  examples : List String
  lastMatched : String
  channels : Option (List (String × SubEntry))
  users : Option (List (String × SubEntry))
deriving DecidableEq, Repr

/-- The own properties of the aggregate `this.patternStats`, keyed by pattern. -/
abbrev Aggregate := List (String × PatternEntry)

/-- The pattern store `questionsCache`: pattern source mapped to response. -/
abbrev Store := List (String × String)

/-- The guild of a message. -/
structure Guild where
  id : String
  name : String
  ownerId : String
deriving DecidableEq, Repr

/-- The fields of a Discord message that the program reads.  `mentionsBot` is
`message.mentions.users.has(client.user.id)`.  The ids are Discord snowflakes,
decimal numerals. -/
structure Message where
  authorBot : Bool
  authorId : String
  authorUsername : String
  channelId : String
  channelName : String
  content : String
  guild : Option Guild
  mentionsBot : Bool
deriving DecidableEq, Repr

/-- Outcome of `content.match(new RegExp(pattern, "i"))`: an exception, `null`,
or a match, given by the position `index` and the length of the matched text
`match[0]`, which is the part of the subject starting at `index`. -/
inductive MatchResult where
  | throws (message : String)
  | noMatch
  | found (index : Nat) (length : Nat)
deriving DecidableEq, Repr

/-- The services of the JavaScript runtime used by the program. -/
structure JSRuntime where
  /-- `String.prototype.toLowerCase`. -/
  toLowerCase : String → String
  /-- Whether `new RegExp(pattern, "i")` returns (rather than throws). -/
  regexCompiles : String → Bool
  /-- `content.match(new RegExp(pattern, "i"))` for a pattern and a content. -/
  regexMatch : String → String → MatchResult
  /-- `JSON.stringify(value, null, 2)` on the statistics aggregate. -/
  jsonStringify : Aggregate → String

/-! ## `PatternStats.trackPatternMatch` (src/logger.js) -/

/-- The two steps `if (!m[id]) m[id] = { name, count: 0 }` and `m[id].count++`
on a `channels` or `users` dictionary. -/
def bumpSub (id name : String) (m : List (String × SubEntry)) : List (String × SubEntry) :=
  let sub := (lookup id m).getD { name := name, count := 0 }
  objAssign id { sub with count := sub.count + 1 } m

/-- The names of the properties of `Object.prototype`, which every plain object
inherits.  Their values are functions, and for `__proto__` the prototype object
itself: all are truthy. -/
def objectPrototypeNames : List String :=
  ["constructor", "__defineGetter__", "__defineSetter__", "hasOwnProperty",
   "__lookupGetter__", "__lookupSetter__", "isPrototypeOf", "propertyIsEnumerable",
   "toString", "valueOf", "__proto__", "toLocaleString"]

/-- Whether `this.patternStats[pattern]` is truthy for a pattern that is not an
own property of the aggregate.  `polluted` tells that an earlier call for the
pattern "__proto__" has stored `count` (a `NaN`, falsy) and `lastMatched` (a
string, truthy) on `Object.prototype`. -/
def inheritedTruthy (polluted : Bool) (pattern : String) : Bool :=
  objectPrototypeNames.contains pattern || (polluted && pattern == "lastMatched")

/-- The state after a call of `trackPatternMatch`: the aggregate, whether the
call threw, and whether `Object.prototype` carries a `lastMatched`. -/
structure TrackResult where
  stats : Aggregate
  threw : Bool
  polluted : Bool
deriving DecidableEq, Repr

/-- The statements of `trackPatternMatch` from `count++` on, run on the entry
`entry0` that `this.patternStats[pattern]` is, an own property of the aggregate.
When `channels` or `users` is absent, reading a property of it raises a
`TypeError`: the method stops there, with `count` and `lastMatched` already
updated. -/
def recordMatch (now : String) (message : Message) (pattern : String) (polluted : Bool)
    (entry0 : PatternEntry) (stats : Aggregate) : TrackResult :=
  let entry1 : PatternEntry := { entry0 with count := entry0.count + 1, lastMatched := now }
  match entry1.channels with
  | none => { stats := objAssign pattern entry1 stats, threw := true, polluted := polluted }
  | some channels =>
    let entry2 : PatternEntry :=
      { entry1 with channels := some (bumpSub message.channelId message.channelName channels) }
    match entry2.users with
    | none => { stats := objAssign pattern entry2 stats, threw := true, polluted := polluted }
    | some users =>
      let entry3 : PatternEntry :=
        { entry2 with users := some (bumpSub message.authorId message.authorUsername users) }
      let entry4 : PatternEntry :=
        if entry3.examples.length < 5 then
          { entry3 with examples := entry3.examples ++ [message.content] }
        else entry3
      { stats := objAssign pattern entry4 stats, threw := false, polluted := polluted }

/-- The method `trackPatternMatch(message, pattern, confidence)`; `now` is the
value of `new Date().toISOString()` stored in `lastMatched` (the value read
when a fresh entry is created is overwritten two statements later, so one
reading is enough).  `confidence` only feeds the log line.

When the aggregate has the pattern as an own property, the method works on that
entry.  When it has not and `this.patternStats[pattern]` is an inherited truthy
value, no entry is created: `count++` and the assignment of `lastMatched` land
on the inherited value (a function, or `Object.prototype` for "__proto__"; on
the inherited string `lastMatched` the assignment throws, the code being
strict), and reading `channels` of it, which is `undefined`, raises a
`TypeError`; the aggregate is left as it was.  Otherwise a fresh entry is
created under the pattern. -/
def trackPatternMatch (now : String) (message : Message) (pattern : String)
    (confidence : ℚ) (polluted : Bool) (stats : Aggregate) : TrackResult :=
  match lookup pattern stats with
  | some entry => recordMatch now message pattern polluted entry stats
  | none =>
    if inheritedTruthy polluted pattern then
      { stats := stats, threw := true, polluted := polluted || pattern == "__proto__" }
    else
      recordMatch now message pattern polluted
        { count := 0, examples := [], lastMatched := now, channels := some [],
          users := some [] } stats

/-- One call of `trackPatternMatch`, with the clock reading taken during it. -/
structure TrackCall where
  now : String
  message : Message
  pattern : String
  confidence : ℚ
deriving DecidableEq, Repr

/-- What `trackPatternMatch` reads and writes: the aggregate, and whether
`Object.prototype` carries a `lastMatched`. -/
structure StatsState where
  stats : Aggregate
  polluted : Bool
deriving DecidableEq, Repr

/-- The state of a process that has recorded nothing: `patternStats = {}` and
an untouched `Object.prototype`. -/
def freshState : StatsState := { stats := [], polluted := false }

/-- The state after one call of `trackPatternMatch`. -/
def trackStep (s : StatsState) (c : TrackCall) : StatsState :=
  { stats := (trackPatternMatch c.now c.message c.pattern c.confidence s.polluted s.stats).stats,
    polluted :=
      (trackPatternMatch c.now c.message c.pattern c.confidence s.polluted s.stats).polluted }

/-- The state after a sequence of calls of `trackPatternMatch`, each one made
on the state left by the one before. -/
def trackAll (calls : List TrackCall) (s : StatsState) : StatsState :=
  calls.foldl trackStep s

/-! ## `PatternStats.getTopPatterns` and `PatternStats.exportStats` (src/logger.js) -/

/-- The order in which the comparator `(a, b) => b[1].count - a[1].count` puts
`a` no later than `b`. -/
def countDesc (a b : String × PatternEntry) : Prop := b.2.count ≤ a.2.count

instance : DecidableRel countDesc := fun a b => Int.decLe b.2.count a.2.count

/-- `Object.entries(this.patternStats).sort((a, b) => b[1].count - a[1].count)`.
`Array.prototype.sort` is stable, and a stable sort has one possible result for
a given comparator; insertion sort computes it. -/
def sortByCount (stats : Aggregate) : List (String × PatternEntry) :=
  List.insertionSort countDesc stats

/-- `xs.slice(0, limit)` for an integer `limit`: a negative `limit` counts from
the end of the array. -/
def sliceFromStart {α : Type} (xs : List α) (limit : Int) : List α :=
  let len : Int := xs.length
  let final : Int := if limit < 0 then max (len + limit) 0 else min limit len
  xs.take final.toNat

/-- An element of the result of `getTopPatterns`. -/
structure TopPattern where
  pattern : String
  count : Int
  lastMatched : String
deriving DecidableEq, Repr

/-- The arrow function `([pattern, data]) => ({ pattern, count, lastMatched })`. -/
def toTopPattern (e : String × PatternEntry) : TopPattern :=
  { pattern := e.1, count := e.2.count, lastMatched := e.2.lastMatched }

/-- The method `getTopPatterns(limit = 10)`; `none` is the omitted argument. -/
def getTopPatterns (limit : Option Int) (stats : Aggregate) : List TopPattern :=
  (sliceFromStart (sortByCount stats) (limit.getD 10)).map toTopPattern

/-- What a call of `exportStats` returns and does: the returned value (`none`
for `null`), the file written with its content, and the aggregate afterwards. -/
structure ExportResult where
  returned : Option String
  written : Option (String × String)
  stats : Aggregate
deriving DecidableEq, Repr

/-- The file name chosen by `exportStats` when `Date.now()` reads `dateNow`. -/
def exportFileName (logDir : String) (dateNow : Nat) : String :=
  logDir ++ "/" ++ ("pattern_stats_export_" ++ toString dateNow ++ ".json")

/-- The method `exportStats()`.  `dateNow` is the reading of `Date.now()` and
`writeOk` tells whether `fs.writeFileSync` returns rather than throws. -/
def exportStats (rt : JSRuntime) (logDir : String) (dateNow : Nat) (writeOk : Bool)
    (stats : Aggregate) : ExportResult :=
  let exportFile := exportFileName logDir dateNow
  if writeOk then
    { returned := some exportFile, written := some (exportFile, rt.jsonStringify stats),
      stats := stats }
  else { returned := none, written := none, stats := stats }

/-! ## `loadQuestions` (src/index.js) -/

/-- A property of a record of a definition file, as far as the loader looks at
it: absent (`undefined`), a value that is not a string (with its truthiness),
or a string. -/
inductive Field where
  | absent
  | other (truthy : Bool)
  | text (value : String)
deriving DecidableEq, Repr

/-- The test `!x`. -/
def Field.falsy : Field → Bool
  | .absent => true
  | .other truthy => !truthy
  | .text value => value = ""

/-- The test `typeof x === "string"`. -/
def Field.isString : Field → Bool
  | .text _ => true
  | _ => false

/-- The string held by a property, if it holds one. -/
def Field.str : Field → String
  | .text value => value
  | _ => ""

/-- A value `fileQuestions[key]`: `null`, on which the destructuring
`const { pattern, response } = ...` throws, or a value with the two properties
(both absent for a number, a boolean or a string). -/
inductive RecordValue where
  | null
  | props (pattern : Field) (response : Field)
deriving DecidableEq, Repr

/-- The variables updated by `loadQuestions`. -/
structure LoadState where
  questionsCache : Store
  loadedPatterns : Nat
  invalidPatterns : Nat
deriving DecidableEq, Repr

/-- The body of the loop `for (const key in fileQuestions)` for one key. -/
def processRecord (rt : JSRuntime) (st : LoadState) (record : RecordValue) : LoadState :=
  match record with
  | .null => { st with invalidPatterns := st.invalidPatterns + 1 }
  | .props pattern response =>
    if pattern.falsy || !pattern.isString then
      { st with invalidPatterns := st.invalidPatterns + 1 }
    else if response.falsy || !response.isString then
      { st with invalidPatterns := st.invalidPatterns + 1 }
    else if rt.regexCompiles pattern.str then
      { st with questionsCache := assign pattern.str response.str st.questionsCache,
                loadedPatterns := st.loadedPatterns + 1 }
    else { st with invalidPatterns := st.invalidPatterns + 1 }

/-- An entry of the directory listing: its name and, when the file can be read
and parsed by `JSON.parse`, its records in the order of `for ... in`. -/
structure DirFile where
  name : String
  parsed : Option (List (String × RecordValue))
deriving DecidableEq, Repr

/-- The test `file.endsWith(".json") && !file.startsWith("!")`. -/
def eligible (file : String) : Bool :=
  ".json".toList.isSuffixOf file.toList && !("!".toList.isPrefixOf file.toList)

/-- The callback of `files.forEach` for one directory entry. -/
def processFile (rt : JSRuntime) (st : LoadState) (file : DirFile) : LoadState :=
  if eligible file.name then
    match file.parsed with
    | none => st
    | some records => records.foldl (fun s kv => processRecord rt s kv.2) st
  else st

/-- The function `loadQuestions(dir)`: `dir` is `none` when the directory does
not exist and the listing of `fs.readdirSync` otherwise; the counters start at
zero and the store is the module-level `questionsCache`. -/
def loadQuestions (rt : JSRuntime) (dir : Option (List DirFile)) (questionsCache : Store) :
    LoadState :=
  match dir with
  | none => { questionsCache := questionsCache, loadedPatterns := 0, invalidPatterns := 0 }
  | some files =>
    files.foldl (processFile rt)
      { questionsCache := questionsCache, loadedPatterns := 0, invalidPatterns := 0 }

/-! ## The `messageCreate` handler (src/index.js) -/

/-- The three commands of the server owner. -/
inductive AdminCommand where
  | patternReport
  | exportStats
  | topPatterns
deriving DecidableEq, Repr

/-- What the handler does, in order: `attempt` is the evaluation of
`content.match(regex)` for a pattern, `reply` is `message.reply(response)`,
`track` is the call `patternStats.trackPatternMatch(message, pattern,
confidence)`, `caught` is the `console.error` of the `catch` block, and `admin`
is the handling of an owner command (a report, an export or a listing followed
by a reply, none of which changes the aggregate). -/
inductive Event where
  | attempt (pattern : String)
  | reply (response : String)
  | track (pattern : String) (confidence : ℚ)
  | caught (pattern : String)
  | admin (command : AdminCommand)
deriving DecidableEq, Repr

/-- The state after the handler has run and what it did. -/
structure HandlerResult where
  stats : Aggregate
  polluted : Bool
  events : List Event
  matchFound : Bool
deriving DecidableEq, Repr

/-- Puts events that happened first in front of a result. -/
def HandlerResult.after (first : List Event) (r : HandlerResult) : HandlerResult :=
  { r with events := first ++ r.events }

/-- The responses sent by `message.reply(response)`, in order. -/
def replies : List Event → List String
  | [] => []
  | .reply response :: rest => response :: replies rest
  | _ :: rest => replies rest

/-- The calls of `trackPatternMatch`, in order. -/
def trackCalls : List Event → List (String × ℚ)
  | [] => []
  | .track pattern confidence :: rest => (pattern, confidence) :: trackCalls rest
  | _ :: rest => trackCalls rest

/-- The patterns on which a match was attempted, in order. -/
def attempts : List Event → List String
  | [] => []
  | .attempt pattern :: rest => pattern :: attempts rest
  | _ :: rest => attempts rest

/-- The text `match[0]` of a match at `index` of the given length. -/
def matchedText (content : String) (index length : Nat) : List Char :=
  (content.toList.drop index).take length

/-- The value `matchLength / content.length`; the handler computes it for
contents of at least 3 characters, so the divisor is not zero. -/
def confidenceOf (content : String) (index length : Nat) : ℚ :=
  ((matchedText content index length).length : ℚ) / (content.length : ℚ)

/-- The loop `for (const [pattern, response] of questionsCache.entries())` with
its `try`/`catch`: an exception raised for a pattern, by the regular expression
or by `trackPatternMatch`, is caught and the loop goes on with the next
pattern; `matchFound = true; break` is reached when the `try` block runs to its
end. -/
def scan (rt : JSRuntime) (now : String) (message : Message) (content : String)
    (confidenceThreshold : ℚ) : Store → Bool → Aggregate → HandlerResult
  | [], polluted, stats =>
    { stats := stats, polluted := polluted, events := [], matchFound := false }
  | (pattern, response) :: rest, polluted, stats =>
    match rt.regexMatch pattern content with
    | .throws _ =>
      (scan rt now message content confidenceThreshold rest polluted stats).after
        [.attempt pattern, .caught pattern]
    | .noMatch =>
      (scan rt now message content confidenceThreshold rest polluted stats).after
        [.attempt pattern]
    | .found index length =>
      let confidence := confidenceOf content index length
      if confidence ≥ confidenceThreshold then
        let tracked := trackPatternMatch now message pattern confidence polluted stats
        if tracked.threw then
          (scan rt now message content confidenceThreshold rest tracked.polluted
              tracked.stats).after
            [.attempt pattern, .reply response, .track pattern confidence, .caught pattern]
        else
          { stats := tracked.stats, polluted := tracked.polluted,
            events := [.attempt pattern, .reply response, .track pattern confidence],
            matchFound := true }
      else
        (scan rt now message content confidenceThreshold rest polluted stats).after
          [.attempt pattern]

/-- The owner command of a message, if the author owns the guild and the
content is one of the three command words. -/
def adminCommand (message : Message) (content : String) : Option AdminCommand :=
  match message.guild with
  | none => none
  | some guild =>
    if message.authorId = guild.ownerId then
      if content = "!pattern-report" then some .patternReport
      else if content = "!export-stats" then some .exportStats
      else if content = "!top-patterns" then some .topPatterns
      else none
    else none

/-- The alternatives of the regular expression of `isQuestion`. -/
def leadWords : List String :=
  ["what", "who", "when", "where", "why", "how", "can", "could", "would", "is", "are", "am",
   "do", "does", "did", "will", "should"]

/-- The characters that `.` does not match in a regular expression without the
`s` flag: line feed, carriage return, U+2028 and U+2029. -/
def isLineTerminator (c : Char) : Bool :=
  c.toNat = 10 || c.toNat = 13 || c.toNat = 8232 || c.toNat = 8233

/-- The test `/^(what|who|...|should).+/.test(content)`: an alternative stands
at the start of the content and `.` matches the character after it. -/
def leadWordTest (content : String) : Bool :=
  leadWords.any fun w =>
    w.toList.isPrefixOf content.toList &&
      match content.toList.drop w.length with
      | c :: _ => !isLineTerminator c
      | [] => false

/-- The constant `isQuestion`. -/
def isQuestion (content : String) : Bool :=
  content.toList.contains '?' || leadWordTest content

/-- The constant `confidenceThreshold`. -/
def confidenceThreshold (isBotMention : Bool) (content : String) : ℚ :=
  if isBotMention || isQuestion content then 3 / 5 else 17 / 20

/-- The listener of `messageCreate`, run on the store `questionsCache`, the
aggregate `stats` and the state `polluted` of `Object.prototype`; `now` is the
clock reading. -/
def messageCreate (rt : JSRuntime) (now : String) (questionsCache : Store)
    (polluted : Bool) (stats : Aggregate) (message : Message) : HandlerResult :=
  if message.authorBot then
    { stats := stats, polluted := polluted, events := [], matchFound := false }
  else
    let content := rt.toLowerCase message.content
    match adminCommand message content with
    | some command =>
      { stats := stats, polluted := polluted, events := [.admin command], matchFound := false }
    | none =>
      if content.length < 3 then
        { stats := stats, polluted := polluted, events := [], matchFound := false }
      else
        scan rt now message content (confidenceThreshold message.mentionsBot content)
          questionsCache polluted stats

/-! ## Reference definitions for the statements -/

/-- The calls of a sequence that are made for a given pattern. -/
def callsFor (pattern : String) (calls : List TrackCall) : List TrackCall :=
  calls.filter fun c => decide (c.pattern = pattern)

/-- The sum of the counts of a `channels` or `users` dictionary. -/
def sumCounts (m : List (String × SubEntry)) : Int :=
  (m.map fun x => x.2.count).sum

/-- The name given for a channel by the first call, in a sequence of calls, that
is made for the pattern from that channel. -/
def firstChannelName (pattern id : String) (calls : List TrackCall) : Option String :=
  (calls.find? fun c => decide (c.pattern = pattern) && decide (c.message.channelId = id)).map
    fun c => c.message.channelName

/-- The name given for a user by the first call, in a sequence of calls, that is
made for the pattern by that user. -/
def firstUserName (pattern id : String) (calls : List TrackCall) : Option String :=
  (calls.find? fun c => decide (c.pattern = pattern) && decide (c.message.authorId = id)).map
    fun c => c.message.authorUsername

/-- Follows the specification: a pattern of the store is acceptable for a
content at a threshold when its regular expression matches the content and the
confidence of the match reaches the threshold. -/
def acceptable (rt : JSRuntime) (content : String) (threshold : ℚ)
    (entry : String × String) : Bool :=
  match rt.regexMatch entry.1 content with
  | .found index length => decide (threshold ≤ confidenceOf content index length)
  | _ => false

/-- Follows the specification: the first acceptable pattern in the iteration
order of the store, with its response. -/
def firstAcceptable (rt : JSRuntime) (content : String) (threshold : ℚ)
    (store : Store) : Option (String × String) :=
  store.find? (acceptable rt content threshold)

/-- Follows the claim: a record is loadable when its pattern is a non-empty
string that compiles as a case-insensitive regular expression and its response
is a non-empty string; the result is that pattern and that response. -/
def loadable (rt : JSRuntime) : RecordValue → Option (String × String)
  | .props (.text pattern) (.text response) =>
    if pattern ≠ "" ∧ response ≠ "" ∧ rt.regexCompiles pattern = true then
      some (pattern, response)
    else none
  | _ => none

/-- The records of the files that `loadQuestions` reads, in the order of the
directory listing and, in a file, of its keys: the files whose name ends in
".json" and does not start with "!", and that can be parsed. -/
def recordsOf : List DirFile → List RecordValue
  | [] => []
  | file :: rest =>
    (if eligible file.name then (file.parsed.getD []).map Prod.snd else []) ++ recordsOf rest

/-- The store after the assignments `store[pattern] = response` for a list of
pairs, in order. -/
def assignAll (store : Store) (entries : List (String × String)) : Store :=
  entries.foldl (fun s x => assign x.1 x.2 s) store

/-! ## An example runtime -/

/-- Position of the first occurrence of `pat` in a text, counted from `start`. -/
def firstOccurrence (pat : List Char) : List Char → Nat → Option Nat
  | [], start => if pat = [] then some start else none
  | c :: cs, start =>
    if pat.isPrefixOf (c :: cs) then some start else firstOccurrence pat cs (start + 1)

/-- Whether a pattern consists of letters, digits and blanks: such a pattern
has no metacharacter and matches the texts equal to it up to case. -/
def isLiteral (pattern : String) : Bool :=
  pattern.toList.all fun c => c.isAlphanum || c = ' '

/-- A runtime for closed examples.  Lower-casing is the one of ASCII; the
regular-expression engine handles the patterns without metacharacters, on which
it finds the leftmost occurrence as `RegExp` does, and rejects the others; the
serializer is a stand-in that renders the aggregate as Lean data. -/
def literalRuntime : JSRuntime where
  toLowerCase s := String.mk (s.toList.map Char.toLower)
  regexCompiles pattern := isLiteral pattern
  regexMatch pattern content :=
    if isLiteral pattern then
      match firstOccurrence (pattern.toList.map Char.toLower) content.toList 0 with
      | some index => .found index pattern.length
      | none => .noMatch
    else .throws "unsupported pattern"
  jsonStringify stats := toString (repr stats)

/-! ## Definitions used in the statements and proofs -/

/-- What holds of the entry `e` of pattern `p` after the calls `calls`: both
dictionaries are there, the counts of each add up to the count of the entry, and
every record of them has a count of at least 1 and the name given by the first
call that created it. -/
def EntryInvariant (calls : List TrackCall) (p : String) (e : PatternEntry) : Prop :=
  ∃ ch us, e.channels = some ch ∧ e.users = some us ∧
    sumCounts ch = e.count ∧ sumCounts us = e.count ∧
    (∀ x ∈ ch, 1 ≤ x.2.count ∧ firstChannelName p x.1 calls = some x.2.name) ∧
    (∀ x ∈ us, 1 ≤ x.2.count ∧ firstUserName p x.1 calls = some x.2.name)

/-- Every call of `calls` either has left its pattern, channel and user in the
aggregate, or was made for a pattern that is no own property and is inherited
truthy. -/
def Recorded (calls : List TrackCall) (s : StatsState) : Prop :=
  ∀ c ∈ calls,
    (lookup c.pattern s.stats = none ∧ inheritedTruthy s.polluted c.pattern = true) ∨
      ∃ e ch us, lookup c.pattern s.stats = some e ∧
        e.channels = some ch ∧ e.users = some us ∧
        (lookup c.message.channelId ch).isSome = true ∧
        (lookup c.message.authorId us).isSome = true

/-- The entry written by a call that runs to its end, from the entry `e` read
by it and the dictionaries `ch` and `us` found in `e`. -/
def updatedEntry (now : String) (message : Message) (e : PatternEntry)
    (ch us : List (String × SubEntry)) : PatternEntry :=
  { count := e.count + 1,
    examples := if e.examples.length < 5 then e.examples ++ [message.content] else e.examples,
    lastMatched := now,
    channels := some (bumpSub message.channelId message.channelName ch),
    users := some (bumpSub message.authorId message.authorUsername us) }

/-- The state after the records `records`, described by the loadable ones. -/
def loadedState (rt : JSRuntime) (st : LoadState) (records : List RecordValue) : LoadState :=
  { questionsCache := assignAll st.questionsCache (records.filterMap (loadable rt)),
    loadedPatterns := st.loadedPatterns + (records.filterMap (loadable rt)).length,
    invalidPatterns :=
      st.invalidPatterns + (records.filter fun r => (loadable rt r).isNone).length }

instance : IsTotal (String × PatternEntry) countDesc :=
  ⟨fun a b => le_total b.2.count a.2.count⟩

instance : IsTrans (String × PatternEntry) countDesc :=
  ⟨fun _ _ _ hab hbc => le_trans hbc hab⟩

/-! ## Inputs of the closed examples -/

/-- A message "Hello" that mentions the bot, sent outside a guild. -/
def exampleMessage : Message :=
  { authorBot := false, authorId := "80351110224678912", authorUsername := "ann",
    channelId := "41771983423143937", channelName := "general", content := "Hello",
    guild := none, mentionsBot := true }

/-- A store of two patterns that both match "hello". -/
def exampleStore : Store := [("hello", "Hi!"), ("hell", "Hey!")]

/-- An aggregate read from a snapshot whose entry for "hello" has no `channels`
and no `users`. -/
def staleStats : Aggregate :=
  [("hello",
    { count := 3, examples := ["hello"], lastMatched := "t0", channels := none, users := none })]

/-- A definition file with two records that carry the same pattern. -/
def duplicateFile : DirFile :=
  { name := "greetings.json",
    parsed := some [("first", .props (.text "hello") (.text "Hi!")),
                    ("second", .props (.text "hello") (.text "Hey!"))] }

/-- A call of `trackPatternMatch` for the message "Hello" and the pattern
"hello". -/
def exampleCall : TrackCall :=
  { now := "t1", message := exampleMessage, pattern := "hello", confidence := 1 }

/-- A store of two patterns that both match "constructor"; the first is the
name of a property of `Object.prototype`. -/
def constructorStore : Store := [("constructor", "C!"), ("construct", "D!")]

/-- A message "constructor" that mentions the bot. -/
def constructorMessage : Message := { exampleMessage with content := "constructor" }

/-- A call of `trackPatternMatch` for the pattern "constructor". -/
def constructorCall : TrackCall :=
  { now := "t1", message := constructorMessage, pattern := "constructor", confidence := 1 }

/-- An aggregate of two patterns. -/
def twoStats : Aggregate :=
  [("a", { count := 3, examples := [], lastMatched := "t0", channels := some [],
           users := some [] }),
   ("b", { count := 5, examples := [], lastMatched := "t1", channels := some [],
           users := some [] })]

/-! ## Dictionaries: basic facts -/

theorem lookup_assign_self {α : Type} (key : String) (value : α) (l : List (String × α)) :
    lookup key (assign key value l) = some value := by
  induction l with
  | nil => simp [assign, lookup]
  | cons hd tl ih =>
    obtain ⟨k, v⟩ := hd
    by_cases h : k = key
    · simp [assign, lookup, h]
    · simp [assign, lookup, h, ih]

theorem lookup_assign_ne {α : Type} (key other : String) (value : α) (l : List (String × α))
    (h : other ≠ key) : lookup other (assign key value l) = lookup other l := by
  induction l with
  | nil => simp [assign, lookup, Ne.symm h]
  | cons hd tl ih =>
    obtain ⟨k, v⟩ := hd
    by_cases hk : k = key
    · subst hk
      simp [assign, lookup, Ne.symm h]
    · by_cases ho : k = other
      · subst ho
        simp [assign, lookup, h]
      · simp [assign, lookup, hk, ho, ih]

theorem mem_of_lookup {α : Type} (key : String) (value : α) (l : List (String × α))
    (h : lookup key l = some value) : (key, value) ∈ l := by
  induction l with
  | nil => simp [lookup] at h
  | cons hd tl ih =>
    obtain ⟨k, v⟩ := hd
    by_cases hk : k = key
    · simp [lookup, hk] at h
      simp [hk, h]
    · simp [lookup, hk] at h
      exact List.mem_cons_of_mem _ (ih h)

theorem mem_assign {α : Type} (key : String) (value : α) (l : List (String × α))
    (x : String × α) (h : x ∈ assign key value l) : x = (key, value) ∨ x ∈ l := by
  induction l with
  | nil => simpa [assign] using h
  | cons hd tl ih =>
    obtain ⟨k, v⟩ := hd
    by_cases hk : k = key
    · simp [assign, hk] at h
      rcases h with h | h
      · exact Or.inl h
      · exact Or.inr (List.mem_cons_of_mem _ h)
    · simp [assign, hk] at h
      rcases h with h | h
      · exact Or.inr (by simp [h])
      · rcases ih h with h1 | h1
        · exact Or.inl h1
        · exact Or.inr (List.mem_cons_of_mem _ h1)

/-! ## Objects as dictionaries: basic facts -/

theorem sumCounts_assign_of_some (id : String) (sub new : SubEntry)
    (m : List (String × SubEntry)) (h : lookup id m = some sub) :
    sumCounts (assign id new m) = sumCounts m - sub.count + new.count := by
  induction m with
  | nil => simp [lookup] at h
  | cons hd tl ih =>
    obtain ⟨k, v⟩ := hd
    by_cases hk : k = id
    · simp [lookup, hk] at h
      simp [assign, hk, sumCounts, h]
      ring
    · simp [lookup, hk] at h
      have := ih h
      simp [assign, hk, sumCounts] at this ⊢
      rw [this]
      ring

theorem sumCounts_assign_of_none (id : String) (new : SubEntry)
    (m : List (String × SubEntry)) (h : lookup id m = none) :
    sumCounts (assign id new m) = sumCounts m + new.count := by
  induction m with
  | nil => simp [assign, sumCounts]
  | cons hd tl ih =>
    obtain ⟨k, v⟩ := hd
    by_cases hk : k = id
    · simp [lookup, hk] at h
    · simp [lookup, hk] at h
      have := ih h
      simp [assign, hk, sumCounts] at this ⊢
      rw [this]
      ring

theorem mem_assign_ne {α : Type} (key : String) (value : α) (l : List (String × α))
    (x : String × α) (h : x.1 ≠ key) : x ∈ assign key value l ↔ x ∈ l := by
  induction l with
  | nil =>
    obtain ⟨k, v⟩ := x
    simp only [assign, List.mem_singleton, List.not_mem_nil, iff_false]
    intro hx
    cases hx
    exact h rfl
  | cons hd tl ih =>
    obtain ⟨k, v⟩ := hd
    by_cases hk : k = key
    · subst hk
      obtain ⟨k2, v2⟩ := x
      have hne : k2 ≠ k := h
      simp [assign, hne]
    · simp [assign, hk, ih]

theorem lookup_insertIndexed_self {α : Type} (n : Nat) (key : String) (value : α)
    (l : List (String × α)) (h : lookup key l = none) :
    lookup key (insertIndexed n key value l) = some value := by
  induction l with
  | nil => simp [insertIndexed, lookup]
  | cons hd tl ih =>
    obtain ⟨k, v⟩ := hd
    have hk : ¬ k = key := by
      intro hk
      simp [lookup, hk] at h
    have htl : lookup key tl = none := by
      simpa [lookup, hk] using h
    unfold insertIndexed
    cases arrayIndex k with
    | none => simp [lookup]
    | some m =>
      by_cases hm : m < n
      · simp [hm, lookup, hk, ih htl]
      · simp [hm, lookup]

theorem lookup_insertIndexed_ne {α : Type} (n : Nat) (key other : String) (value : α)
    (l : List (String × α)) (h : other ≠ key) :
    lookup other (insertIndexed n key value l) = lookup other l := by
  have hne : ¬ key = other := fun hh => h hh.symm
  induction l with
  | nil => simp [insertIndexed, lookup, hne]
  | cons hd tl ih =>
    obtain ⟨k, v⟩ := hd
    unfold insertIndexed
    cases arrayIndex k with
    | none => simp [lookup, hne]
    | some m =>
      by_cases hm : m < n
      · by_cases hk : k = other
        · simp [hm, lookup, hk]
        · simp [hm, lookup, hk, ih]
      · simp [hm, lookup, hne]

theorem mem_insertIndexed {α : Type} (n : Nat) (key : String) (value : α)
    (l : List (String × α)) (x : String × α) :
    x ∈ insertIndexed n key value l ↔ x = (key, value) ∨ x ∈ l := by
  induction l with
  | nil => simp [insertIndexed]
  | cons hd tl ih =>
    obtain ⟨k, v⟩ := hd
    unfold insertIndexed
    cases arrayIndex k with
    | none => simp
    | some m =>
      by_cases hm : m < n
      · simp only [hm, if_true, List.mem_cons, ih]
        tauto
      · simp [hm]

theorem lookup_objAssign_self {α : Type} (key : String) (value : α) (l : List (String × α)) :
    lookup key (objAssign key value l) = some value := by
  unfold objAssign
  cases h : lookup key l with
  | some v => exact lookup_assign_self key value l
  | none =>
    cases arrayIndex key with
    | none => exact lookup_assign_self key value l
    | some n => exact lookup_insertIndexed_self n key value l h

theorem lookup_objAssign_ne {α : Type} (key other : String) (value : α)
    (l : List (String × α)) (h : other ≠ key) :
    lookup other (objAssign key value l) = lookup other l := by
  unfold objAssign
  cases lookup key l with
  | some v => exact lookup_assign_ne key other value l h
  | none =>
    cases arrayIndex key with
    | none => exact lookup_assign_ne key other value l h
    | some n => exact lookup_insertIndexed_ne n key other value l h

theorem mem_objAssign {α : Type} (key : String) (value : α) (l : List (String × α))
    (x : String × α) (h : x ∈ objAssign key value l) : x = (key, value) ∨ x ∈ l := by
  unfold objAssign at h
  cases hl : lookup key l with
  | some v =>
    rw [hl] at h
    exact mem_assign key value l x h
  | none =>
    rw [hl] at h
    cases ha : arrayIndex key with
    | none =>
      rw [ha] at h
      exact mem_assign key value l x h
    | some n =>
      rw [ha] at h
      exact (mem_insertIndexed n key value l x).mp h

theorem mem_objAssign_ne {α : Type} (key : String) (value : α) (l : List (String × α))
    (x : String × α) (h : x.1 ≠ key) : x ∈ objAssign key value l ↔ x ∈ l := by
  unfold objAssign
  cases lookup key l with
  | some v => exact mem_assign_ne key value l x h
  | none =>
    cases arrayIndex key with
    | none => exact mem_assign_ne key value l x h
    | some n =>
      rw [mem_insertIndexed]
      constructor
      · rintro (hx | hx)
        · rw [hx] at h
          exact absurd rfl h
        · exact hx
      · exact Or.inr

theorem sumCounts_insertIndexed (n : Nat) (id : String) (new : SubEntry)
    (m : List (String × SubEntry)) :
    sumCounts (insertIndexed n id new m) = sumCounts m + new.count := by
  induction m with
  | nil => simp [insertIndexed, sumCounts]
  | cons hd tl ih =>
    obtain ⟨k, v⟩ := hd
    unfold insertIndexed
    cases arrayIndex k with
    | none =>
      simp [sumCounts]
      ring
    | some i =>
      by_cases hi : i < n
      · simp only [hi, if_true]
        simp only [sumCounts, List.map_cons, List.sum_cons] at ih ⊢
        rw [ih]
        ring
      · simp [hi, sumCounts]
        ring

theorem sumCounts_objAssign_of_some (id : String) (sub new : SubEntry)
    (m : List (String × SubEntry)) (h : lookup id m = some sub) :
    sumCounts (objAssign id new m) = sumCounts m - sub.count + new.count := by
  unfold objAssign
  rw [h]
  exact sumCounts_assign_of_some id sub new m h

theorem sumCounts_objAssign_of_none (id : String) (new : SubEntry)
    (m : List (String × SubEntry)) (h : lookup id m = none) :
    sumCounts (objAssign id new m) = sumCounts m + new.count := by
  unfold objAssign
  rw [h]
  cases arrayIndex id with
  | none => exact sumCounts_assign_of_none id new m h
  | some n => exact sumCounts_insertIndexed n id new m

theorem sumCounts_bumpSub (id name : String) (m : List (String × SubEntry)) :
    sumCounts (bumpSub id name m) = sumCounts m + 1 := by
  unfold bumpSub
  cases h : lookup id m with
  | none =>
    simp only [Option.getD_none]
    rw [sumCounts_objAssign_of_none _ _ _ h]
    simp
  | some sub =>
    simp only [Option.getD_some]
    rw [sumCounts_objAssign_of_some _ sub _ _ h]
    simp only
    ring

theorem mem_bumpSub (id name : String) (m : List (String × SubEntry)) (x : String × SubEntry)
    (h : x ∈ bumpSub id name m) :
    x ∈ m ∨ (x.1 = id ∧
      ((∃ sub, lookup id m = some sub ∧ x.2 = { name := sub.name, count := sub.count + 1 }) ∨
        (lookup id m = none ∧ x.2 = { name := name, count := 1 }))) := by
  unfold bumpSub at h
  rcases mem_objAssign _ _ _ _ h with h1 | h1
  · right
    cases hl : lookup id m with
    | none =>
      rw [hl] at h1
      simp [h1]
    | some sub =>
      rw [hl] at h1
      simp [h1]
  · exact Or.inl h1

theorem lookup_bumpSub_isSome (id name other : String) (m : List (String × SubEntry))
    (h : other = id ∨ (lookup other m).isSome = true) :
    (lookup other (bumpSub id name m)).isSome = true := by
  unfold bumpSub
  by_cases ho : other = id
  · rw [ho, lookup_objAssign_self]
    rfl
  · rw [lookup_objAssign_ne _ _ _ _ ho]
    rcases h with h | h
    · exact absurd h ho
    · exact h

/-! ## `trackPatternMatch`: one call -/

theorem recordMatch_of_complete (now : String) (message : Message) (pattern : String)
    (polluted : Bool) (e : PatternEntry) (stats : Aggregate)
    (ch us : List (String × SubEntry)) (hch : e.channels = some ch)
    (hus : e.users = some us) :
    recordMatch now message pattern polluted e stats
      = { stats := objAssign pattern (updatedEntry now message e ch us) stats,
          threw := false, polluted := polluted } := by
  unfold recordMatch updatedEntry
  simp only [hch, hus]
  split <;> rfl

theorem recordMatch_lookup_other (now : String) (message : Message) (pattern : String)
    (polluted : Bool) (e : PatternEntry) (stats : Aggregate) (other : String)
    (h : other ≠ pattern) :
    lookup other (recordMatch now message pattern polluted e stats).stats
      = lookup other stats := by
  unfold recordMatch
  simp only
  split
  · exact lookup_objAssign_ne _ _ _ _ h
  · split
    · exact lookup_objAssign_ne _ _ _ _ h
    · exact lookup_objAssign_ne _ _ _ _ h

theorem recordMatch_mem_other (now : String) (message : Message) (pattern : String)
    (polluted : Bool) (e : PatternEntry) (stats : Aggregate) (x : String × PatternEntry)
    (h : x.1 ≠ pattern) :
    x ∈ (recordMatch now message pattern polluted e stats).stats ↔ x ∈ stats := by
  unfold recordMatch
  simp only
  split
  · exact mem_objAssign_ne _ _ _ _ h
  · split
    · exact mem_objAssign_ne _ _ _ _ h
    · exact mem_objAssign_ne _ _ _ _ h

theorem trackPatternMatch_of_some (now : String) (message : Message) (pattern : String)
    (confidence : ℚ) (polluted : Bool) (stats : Aggregate) (e : PatternEntry)
    (ch us : List (String × SubEntry))
    (he : lookup pattern stats = some e) (hch : e.channels = some ch)
    (hus : e.users = some us) :
    trackPatternMatch now message pattern confidence polluted stats
      = { stats := objAssign pattern (updatedEntry now message e ch us) stats,
          threw := false, polluted := polluted } := by
  unfold trackPatternMatch
  rw [he]
  exact recordMatch_of_complete now message pattern polluted e stats ch us hch hus

theorem trackPatternMatch_of_fresh (now : String) (message : Message) (pattern : String)
    (confidence : ℚ) (polluted : Bool) (stats : Aggregate)
    (he : lookup pattern stats = none) (hin : inheritedTruthy polluted pattern = false) :
    trackPatternMatch now message pattern confidence polluted stats
      = { stats := objAssign pattern
            (updatedEntry now message
              { count := 0, examples := [], lastMatched := now, channels := some [],
                users := some [] } [] []) stats,
          threw := false, polluted := polluted } := by
  unfold trackPatternMatch
  rw [he]
  simp only [hin, Bool.false_eq_true, if_false]
  exact recordMatch_of_complete now message pattern polluted _ stats [] [] rfl rfl

theorem trackPatternMatch_of_inherited (now : String) (message : Message) (pattern : String)
    (confidence : ℚ) (polluted : Bool) (stats : Aggregate)
    (he : lookup pattern stats = none) (hin : inheritedTruthy polluted pattern = true) :
    trackPatternMatch now message pattern confidence polluted stats
      = { stats := stats, threw := true, polluted := polluted || pattern == "__proto__" } := by
  unfold trackPatternMatch
  rw [he]
  simp [hin]

theorem trackPatternMatch_lookup_other (now : String) (message : Message) (pattern : String)
    (confidence : ℚ) (polluted : Bool) (stats : Aggregate) (other : String)
    (h : other ≠ pattern) :
    lookup other (trackPatternMatch now message pattern confidence polluted stats).stats
      = lookup other stats := by
  unfold trackPatternMatch
  cases lookup pattern stats with
  | some e => exact recordMatch_lookup_other _ _ _ _ _ _ _ h
  | none =>
    simp only
    split
    · rfl
    · exact recordMatch_lookup_other _ _ _ _ _ _ _ h

theorem trackPatternMatch_mem_other (now : String) (message : Message) (pattern : String)
    (confidence : ℚ) (polluted : Bool) (stats : Aggregate) (x : String × PatternEntry)
    (h : x.1 ≠ pattern) :
    x ∈ (trackPatternMatch now message pattern confidence polluted stats).stats ↔ x ∈ stats := by
  unfold trackPatternMatch
  cases lookup pattern stats with
  | some e => exact recordMatch_mem_other _ _ _ _ _ _ _ h
  | none =>
    simp only
    split
    · rfl
    · exact recordMatch_mem_other _ _ _ _ _ _ _ h

theorem inheritedTruthy_mono (polluted extra : Bool) (pattern : String)
    (h : inheritedTruthy polluted pattern = true) :
    inheritedTruthy (polluted || extra) pattern = true := by
  unfold inheritedTruthy at h ⊢
  cases polluted <;> cases extra <;> simp_all

theorem trackAll_snoc (calls : List TrackCall) (c : TrackCall) (s : StatsState) :
    trackAll (calls ++ [c]) s = trackStep (trackAll calls s) c := by
  simp [trackAll, List.foldl_append]

/-! ## `trackPatternMatch`: sequences of calls -/

theorem callsFor_snoc (pattern : String) (calls : List TrackCall) (c : TrackCall) :
    callsFor pattern (calls ++ [c])
      = callsFor pattern calls ++ (if c.pattern = pattern then [c] else []) := by
  unfold callsFor
  rw [List.filter_append]
  by_cases h : c.pattern = pattern <;> simp [List.filter, h]

theorem examples_step (cs : List TrackCall) (c : TrackCall) :
    (if ((cs.take 5).map fun k => k.message.content).length < 5 then
        ((cs.take 5).map fun k => k.message.content) ++ [c.message.content]
      else (cs.take 5).map fun k => k.message.content)
      = ((cs ++ [c]).take 5).map fun k => k.message.content := by
  by_cases h : cs.length < 5
  · have h1 : cs.take 5 = cs := List.take_of_length_le (by omega)
    have h2 : (cs ++ [c]).take 5 = cs ++ [c] :=
      List.take_of_length_le (by simp; omega)
    rw [h1, h2]
    simp [h]
  · have h2 : (cs ++ [c]).take 5 = cs.take 5 :=
      List.take_append_of_le_length (by omega)
    rw [h2]
    have h3 : ¬ ((cs.take 5).map fun k => k.message.content).length < 5 := by
      simp
      omega
    simp only [h3, if_false]

theorem entry_after_calls (pattern : String) (s : StatsState)
    (hnone : lookup pattern s.stats = none)
    (hname : ∀ polluted, inheritedTruthy polluted pattern = false)
    (calls : List TrackCall) :
    (callsFor pattern calls = [] → lookup pattern (trackAll calls s).stats = none) ∧
      (callsFor pattern calls ≠ [] →
        ∃ e ch us, lookup pattern (trackAll calls s).stats = some e ∧
          e.channels = some ch ∧ e.users = some us ∧
          e.count = (callsFor pattern calls).length ∧
          e.examples = ((callsFor pattern calls).take 5).map (fun k => k.message.content) ∧
          (callsFor pattern calls).getLast?.map (fun k => k.now) = some e.lastMatched) := by
  induction calls using List.reverseRecOn with
  | nil =>
    refine ⟨fun _ => hnone, fun h => absurd rfl h⟩
  | append_singleton calls c ih =>
    rw [trackAll_snoc, callsFor_snoc]
    unfold trackStep
    simp only
    by_cases hp : c.pattern = pattern
    · simp only [hp, if_true]
      refine ⟨fun h => by simp at h, fun _ => ?_⟩
      by_cases hcs : callsFor pattern calls = []
      · have hl := ih.1 hcs
        rw [trackPatternMatch_of_fresh _ _ _ _ _ _ hl (hname _), lookup_objAssign_self]
        refine ⟨_, _, _, rfl, rfl, rfl, ?_, ?_, ?_⟩
        · rw [hcs]
          simp [updatedEntry]
        · rw [hcs]
          simp [updatedEntry]
        · rw [hcs]
          simp [updatedEntry]
      · obtain ⟨e, ch, us, hl, hch, hus, hcount, hex, hlast⟩ := ih.2 hcs
        rw [trackPatternMatch_of_some _ _ _ _ _ _ e ch us hl hch hus, lookup_objAssign_self]
        refine ⟨_, _, _, rfl, rfl, rfl, ?_, ?_, ?_⟩
        · simp [updatedEntry, hcount]
        · simp only [updatedEntry, hex]
          exact examples_step _ _
        · simp [updatedEntry]
    · simp only [hp, if_false, List.append_nil]
      rw [trackPatternMatch_lookup_other _ _ _ _ _ _ _ (Ne.symm hp)]
      exact ih

theorem firstChannelName_snoc (p id : String) (calls : List TrackCall) (c : TrackCall) :
    firstChannelName p id (calls ++ [c]) =
      (firstChannelName p id calls).or
        (if c.pattern = p ∧ c.message.channelId = id then some c.message.channelName
         else none) := by
  unfold firstChannelName
  rw [List.find?_append]
  cases List.find? (fun c => decide (c.pattern = p) && decide (c.message.channelId = id)) calls with
  | some k => simp
  | none =>
    by_cases h : c.pattern = p ∧ c.message.channelId = id
    · simp [List.find?, h]
    · have h2 : (decide (c.pattern = p) && decide (c.message.channelId = id)) = false := by
        simpa using h
      simp [List.find?, h, h2]

theorem firstUserName_snoc (p id : String) (calls : List TrackCall) (c : TrackCall) :
    firstUserName p id (calls ++ [c]) =
      (firstUserName p id calls).or
        (if c.pattern = p ∧ c.message.authorId = id then some c.message.authorUsername
         else none) := by
  unfold firstUserName
  rw [List.find?_append]
  cases List.find? (fun c => decide (c.pattern = p) && decide (c.message.authorId = id)) calls with
  | some k => simp
  | none =>
    by_cases h : c.pattern = p ∧ c.message.authorId = id
    · simp [List.find?, h]
    · have h2 : (decide (c.pattern = p) && decide (c.message.authorId = id)) = false := by
        simpa using h
      simp [List.find?, h, h2]

theorem firstChannelName_none_of_not_recorded (p id : String) (calls : List TrackCall)
    (h : ∀ c ∈ calls, ¬ (c.pattern = p ∧ c.message.channelId = id)) :
    firstChannelName p id calls = none := by
  unfold firstChannelName
  rw [Option.map_eq_none', List.find?_eq_none]
  intro c hc
  simpa using h c hc

theorem firstUserName_none_of_not_recorded (p id : String) (calls : List TrackCall)
    (h : ∀ c ∈ calls, ¬ (c.pattern = p ∧ c.message.authorId = id)) :
    firstUserName p id calls = none := by
  unfold firstUserName
  rw [Option.map_eq_none', List.find?_eq_none]
  intro c hc
  simpa using h c hc

theorem entryInvariant_snoc_other (calls : List TrackCall) (c : TrackCall) (p : String)
    (e : PatternEntry) (h : EntryInvariant calls p e) : EntryInvariant (calls ++ [c]) p e := by
  obtain ⟨ch, us, hch, hus, hsc, hsu, hc, hu⟩ := h
  refine ⟨ch, us, hch, hus, hsc, hsu, ?_, ?_⟩
  · intro x hx
    refine ⟨(hc x hx).1, ?_⟩
    rw [firstChannelName_snoc, (hc x hx).2]
    rfl
  · intro x hx
    refine ⟨(hu x hx).1, ?_⟩
    rw [firstUserName_snoc, (hu x hx).2]
    rfl

theorem entryInvariant_updated (calls : List TrackCall) (c : TrackCall) (e : PatternEntry)
    (ch us : List (String × SubEntry))
    (hsc : sumCounts ch = e.count) (hsu : sumCounts us = e.count)
    (hc : ∀ x ∈ ch, 1 ≤ x.2.count ∧ firstChannelName c.pattern x.1 calls = some x.2.name)
    (hu : ∀ x ∈ us, 1 ≤ x.2.count ∧ firstUserName c.pattern x.1 calls = some x.2.name)
    (hcn : lookup c.message.channelId ch = none →
      firstChannelName c.pattern c.message.channelId calls = none)
    (hun : lookup c.message.authorId us = none →
      firstUserName c.pattern c.message.authorId calls = none) :
    EntryInvariant (calls ++ [c]) c.pattern (updatedEntry c.now c.message e ch us) := by
  refine ⟨_, _, rfl, rfl, ?_, ?_, ?_, ?_⟩
  · rw [sumCounts_bumpSub, hsc]
    rfl
  · rw [sumCounts_bumpSub, hsu]
    rfl
  · intro x hx
    rw [firstChannelName_snoc]
    rcases mem_bumpSub _ _ _ _ hx with h | ⟨hid, ⟨sub, hl, hx2⟩ | ⟨hl, hx2⟩⟩
    · refine ⟨(hc x h).1, ?_⟩
      rw [(hc x h).2]
      rfl
    · have hs := hc (c.message.channelId, sub) (mem_of_lookup _ _ _ hl)
      rw [hid, hx2]
      refine ⟨by have := hs.1; simp only at this ⊢; omega, ?_⟩
      rw [hs.2]
      rfl
    · rw [hid, hx2, hcn hl]
      simp
  · intro x hx
    rw [firstUserName_snoc]
    rcases mem_bumpSub _ _ _ _ hx with h | ⟨hid, ⟨sub, hl, hx2⟩ | ⟨hl, hx2⟩⟩
    · refine ⟨(hu x h).1, ?_⟩
      rw [(hu x h).2]
      rfl
    · have hs := hu (c.message.authorId, sub) (mem_of_lookup _ _ _ hl)
      rw [hid, hx2]
      refine ⟨by have := hs.1; simp only at this ⊢; omega, ?_⟩
      rw [hs.2]
      rfl
    · rw [hid, hx2, hun hl]
      simp

theorem invariant_after_calls (calls : List TrackCall) :
    (∀ p e, (p, e) ∈ (trackAll calls freshState).stats → EntryInvariant calls p e) ∧
      Recorded calls (trackAll calls freshState) := by
  induction calls using List.reverseRecOn with
  | nil =>
    refine ⟨fun p e h => by simp [trackAll, freshState] at h, fun c hc => by simp at hc⟩
  | append_singleton calls c ih =>
    obtain ⟨inv, rec⟩ := ih
    rw [trackAll_snoc]
    unfold trackStep
    cases hl : lookup c.pattern (trackAll calls freshState).stats with
    | none =>
      cases hin : inheritedTruthy (trackAll calls freshState).polluted c.pattern with
      | true =>
        rw [trackPatternMatch_of_inherited _ _ _ _ _ _ hl hin]
        constructor
        · intro p e hmem
          exact entryInvariant_snoc_other calls c p e (inv p e hmem)
        · intro k hk
          rcases List.mem_append.mp hk with hk | hk
          · rcases rec k hk with ⟨hn, hi⟩ | hr
            · exact Or.inl ⟨hn, inheritedTruthy_mono _ _ _ hi⟩
            · exact Or.inr hr
          · rw [List.mem_singleton] at hk
            subst hk
            exact Or.inl ⟨hl, inheritedTruthy_mono _ _ _ hin⟩
      | false =>
        have hfresh : ∀ k ∈ calls, k.pattern ≠ c.pattern := by
          intro k hk hp
          rcases rec k hk with ⟨_, hi⟩ | ⟨e, _, _, he, _⟩
          · rw [hp, hin] at hi
            cases hi
          · rw [hp, hl] at he
            cases he
        rw [trackPatternMatch_of_fresh _ _ _ _ _ _ hl hin]
        constructor
        · intro p e hmem
          rcases mem_objAssign _ _ _ _ hmem with h | h
          · cases h
            refine entryInvariant_updated calls c _ [] [] rfl rfl (by simp) (by simp) ?_ ?_
            · intro _
              exact firstChannelName_none_of_not_recorded _ _ _
                (fun k hk hh => hfresh k hk hh.1)
            · intro _
              exact firstUserName_none_of_not_recorded _ _ _
                (fun k hk hh => hfresh k hk hh.1)
          · exact entryInvariant_snoc_other calls c p e (inv p e h)
        · intro k hk
          rcases List.mem_append.mp hk with hk | hk
          · have hne := hfresh k hk
            rcases rec k hk with ⟨hn, hi⟩ | ⟨e, ch, us, he, hrest⟩
            · refine Or.inl ⟨?_, hi⟩
              simp only
              rw [lookup_objAssign_ne _ _ _ _ hne]
              exact hn
            · refine Or.inr ⟨e, ch, us, ?_, hrest⟩
              simp only
              rw [lookup_objAssign_ne _ _ _ _ hne]
              exact he
          · rw [List.mem_singleton] at hk
            subst hk
            refine Or.inr ⟨_, _, _, lookup_objAssign_self _ _ _, rfl, rfl, ?_, ?_⟩
            · exact lookup_bumpSub_isSome _ _ _ _ (Or.inl rfl)
            · exact lookup_bumpSub_isSome _ _ _ _ (Or.inl rfl)
    | some e0 =>
      obtain ⟨ch, us, hch, hus, hsc, hsu, hc, hu⟩ := inv c.pattern e0 (mem_of_lookup _ _ _ hl)
      have hown : ∀ k ∈ calls, k.pattern = c.pattern →
          (lookup k.message.channelId ch).isSome = true ∧
            (lookup k.message.authorId us).isSome = true := by
        intro k hk hp
        rcases rec k hk with ⟨hn, _⟩ | ⟨e, ch2, us2, he, hch2, hus2, hs1, hs2⟩
        · rw [hp, hl] at hn
          cases hn
        · rw [hp, hl] at he
          cases he
          rw [hch] at hch2
          cases hch2
          rw [hus] at hus2
          cases hus2
          exact ⟨hs1, hs2⟩
      rw [trackPatternMatch_of_some _ _ _ _ _ _ e0 ch us hl hch hus]
      constructor
      · intro p e hmem
        rcases mem_objAssign _ _ _ _ hmem with h | h
        · cases h
          refine entryInvariant_updated calls c e0 ch us hsc hsu hc hu ?_ ?_
          · intro hnone
            refine firstChannelName_none_of_not_recorded _ _ _ ?_
            rintro k hk ⟨hp, hid⟩
            have hsome := (hown k hk hp).1
            rw [hid, hnone] at hsome
            cases hsome
          · intro hnone
            refine firstUserName_none_of_not_recorded _ _ _ ?_
            rintro k hk ⟨hp, hid⟩
            have hsome := (hown k hk hp).2
            rw [hid, hnone] at hsome
            cases hsome
        · exact entryInvariant_snoc_other calls c p e (inv p e h)
      · intro k hk
        rcases List.mem_append.mp hk with hk | hk
        · by_cases hp : k.pattern = c.pattern
          · obtain ⟨hs1, hs2⟩ := hown k hk hp
            rw [hp]
            refine Or.inr ⟨_, _, _, lookup_objAssign_self _ _ _, rfl, rfl, ?_, ?_⟩
            · exact lookup_bumpSub_isSome _ _ _ _ (Or.inr hs1)
            · exact lookup_bumpSub_isSome _ _ _ _ (Or.inr hs2)
          · rcases rec k hk with ⟨hn, hi⟩ | ⟨e, ch2, us2, he, hrest⟩
            · refine Or.inl ⟨?_, hi⟩
              simp only
              rw [lookup_objAssign_ne _ _ _ _ hp]
              exact hn
            · refine Or.inr ⟨e, ch2, us2, ?_, hrest⟩
              simp only
              rw [lookup_objAssign_ne _ _ _ _ hp]
              exact he
        · rw [List.mem_singleton] at hk
          subst hk
          refine Or.inr ⟨_, _, _, lookup_objAssign_self _ _ _, rfl, rfl, ?_, ?_⟩
          · exact lookup_bumpSub_isSome _ _ _ _ (Or.inl rfl)
          · exact lookup_bumpSub_isSome _ _ _ _ (Or.inl rfl)

/-! ## `loadQuestions`: records, files and the store -/

theorem processRecord_of_loadable (rt : JSRuntime) (st : LoadState) (record : RecordValue)
    (pattern response : String) (h : loadable rt record = some (pattern, response)) :
    processRecord rt st record =
      { questionsCache := assign pattern response st.questionsCache,
        loadedPatterns := st.loadedPatterns + 1,
        invalidPatterns := st.invalidPatterns } := by
  cases record with
  | null => simp [loadable] at h
  | props p r =>
    cases p with
    | absent => simp [loadable] at h
    | other t => simp [loadable] at h
    | text pv =>
      cases r with
      | absent => simp [loadable] at h
      | other t => simp [loadable] at h
      | text rv =>
        simp only [loadable] at h
        split at h
        · rename_i hc
          cases h
          simp [processRecord, Field.falsy, Field.isString, Field.str, hc.1, hc.2.1, hc.2.2]
        · cases h

theorem processRecord_of_not_loadable (rt : JSRuntime) (st : LoadState) (record : RecordValue)
    (h : loadable rt record = none) :
    processRecord rt st record =
      { questionsCache := st.questionsCache,
        loadedPatterns := st.loadedPatterns,
        invalidPatterns := st.invalidPatterns + 1 } := by
  cases record with
  | null => rfl
  | props p r =>
    cases p with
    | absent => rfl
    | other t => simp [processRecord, Field.isString]
    | text pv =>
      by_cases hp : pv = ""
      · simp [processRecord, Field.falsy, hp]
      · cases r with
        | absent => simp [processRecord, Field.falsy, Field.isString, hp]
        | other t => simp [processRecord, Field.falsy, Field.isString, hp]
        | text rv =>
          by_cases hr : rv = ""
          · simp [processRecord, Field.falsy, Field.isString, hp, hr]
          · simp only [loadable] at h
            have hc : rt.regexCompiles pv = false := by
              cases hcomp : rt.regexCompiles pv with
              | false => rfl
              | true => simp [hp, hr, hcomp] at h
            simp [processRecord, Field.falsy, Field.isString, Field.str, hp, hr, hc]

theorem loadedState_nil (rt : JSRuntime) (st : LoadState) : loadedState rt st [] = st := by
  simp [loadedState, assignAll]

theorem loadedState_cons (rt : JSRuntime) (st : LoadState) (record : RecordValue)
    (records : List RecordValue) :
    loadedState rt st (record :: records)
      = loadedState rt (processRecord rt st record) records := by
  cases h : loadable rt record with
  | none =>
    rw [processRecord_of_not_loadable rt st record h]
    simp [loadedState, h, List.filter]
    omega
  | some x =>
    obtain ⟨p, r⟩ := x
    rw [processRecord_of_loadable rt st record p r h]
    simp [loadedState, h, List.filter, assignAll]
    omega

theorem loadedState_append (rt : JSRuntime) (st : LoadState) (xs ys : List RecordValue) :
    loadedState rt st (xs ++ ys) = loadedState rt (loadedState rt st xs) ys := by
  induction xs generalizing st with
  | nil => rw [List.nil_append, loadedState_nil]
  | cons x xs ih => rw [List.cons_append, loadedState_cons, loadedState_cons, ih]

theorem foldl_processRecord (rt : JSRuntime) (st : LoadState)
    (records : List (String × RecordValue)) :
    records.foldl (fun s kv => processRecord rt s kv.2) st
      = loadedState rt st (records.map Prod.snd) := by
  induction records generalizing st with
  | nil => rw [List.map_nil, loadedState_nil, List.foldl_nil]
  | cons kv rest ih => rw [List.foldl_cons, List.map_cons, loadedState_cons, ih]

theorem foldl_processFile (rt : JSRuntime) (st : LoadState) (files : List DirFile) :
    files.foldl (processFile rt) st = loadedState rt st (recordsOf files) := by
  induction files generalizing st with
  | nil => rw [recordsOf, loadedState_nil, List.foldl_nil]
  | cons file rest ih =>
    rw [List.foldl_cons, recordsOf, loadedState_append, ih]
    congr 1
    unfold processFile
    by_cases he : eligible file.name = true
    · cases hp : file.parsed with
      | none => simp [he, loadedState_nil]
      | some records => simp [he, foldl_processRecord]
    · simp [he, loadedState_nil]

theorem assignAll_snoc (store : Store) (entries : List (String × String))
    (x : String × String) :
    assignAll store (entries ++ [x]) = assign x.1 x.2 (assignAll store entries) := by
  simp [assignAll, List.foldl_append]

theorem lookup_assignAll (store : Store) (entries : List (String × String)) (p : String) :
    lookup p (assignAll store entries)
      = (((entries.filter fun x => decide (x.1 = p)).getLast?).map Prod.snd).or
          (lookup p store) := by
  induction entries using List.reverseRecOn with
  | nil => simp [assignAll]
  | append_singleton entries x ih =>
    rw [assignAll_snoc, List.filter_append]
    by_cases hx : x.1 = p
    · rw [← hx, lookup_assign_self]
      simp [List.filter]
    · have hne : p ≠ x.1 := fun h => hx h.symm
      rw [lookup_assign_ne _ _ _ _ hne, ih]
      simp [List.filter, hx]

theorem assign_of_not_mem (key value : String) (l : Store)
    (h : key ∉ l.map Prod.fst) : assign key value l = l ++ [(key, value)] := by
  induction l with
  | nil => rfl
  | cons hd tl ih =>
    obtain ⟨k, v⟩ := hd
    simp only [List.map_cons, List.mem_cons, not_or] at h
    have hk : ¬ k = key := fun hh => h.1 hh.symm
    simp [assign, hk, ih h.2]

theorem lookup_of_mem_of_nodup (l : Store) (p r : String)
    (h : (l.map Prod.fst).Nodup) (hmem : (p, r) ∈ l) : lookup p l = some r := by
  induction l with
  | nil => simp at hmem
  | cons hd tl ih =>
    obtain ⟨k, v⟩ := hd
    rw [List.map_cons, List.nodup_cons] at h
    rcases List.mem_cons.mp hmem with hm | hm
    · cases hm
      simp [lookup]
    · have hk : k ≠ p := by
        intro hkp
        exact h.1 (by rw [hkp]; exact List.mem_map.mpr ⟨(p, r), hm, rfl⟩)
      simp only [lookup, hk, if_false]
      exact ih h.2 hm

theorem assignAll_of_nodup (entries : List (String × String))
    (h : (entries.map Prod.fst).Nodup) : assignAll [] entries = entries := by
  induction entries using List.reverseRecOn with
  | nil => rfl
  | append_singleton entries x ih =>
    rw [List.map_append, List.nodup_append] at h
    obtain ⟨h1, _, h3⟩ := h
    rw [assignAll_snoc, ih h1]
    refine assign_of_not_mem _ _ _ ?_
    intro hmem
    exact h3 hmem (by simp)

/-! ## `getTopPatterns`: the sort and the slice -/

theorem filter_count_orderedInsert (n : Int) (a : String × PatternEntry)
    (l : List (String × PatternEntry)) :
    (List.orderedInsert countDesc a l).filter (fun x => decide (x.2.count = n))
      = (if a.2.count = n then [a] else []) ++ l.filter (fun x => decide (x.2.count = n)) := by
  induction l with
  | nil => by_cases h : a.2.count = n <;> simp [List.orderedInsert, List.filter, h]
  | cons b l ih =>
    by_cases hr : countDesc a b
    · simp only [List.orderedInsert, hr, if_true]
      by_cases h : a.2.count = n <;> simp [List.filter, h]
    · simp only [List.orderedInsert, hr, if_false]
      have hlt : a.2.count < b.2.count := by
        unfold countDesc at hr
        omega
      by_cases h : a.2.count = n
      · have hb : ¬ b.2.count = n := by omega
        simp [List.filter, h, hb, ih]
      · by_cases hb : b.2.count = n <;> simp [List.filter, h, hb, ih]

theorem filter_count_sortByCount (n : Int) (stats : Aggregate) :
    (sortByCount stats).filter (fun x => decide (x.2.count = n))
      = stats.filter (fun x => decide (x.2.count = n)) := by
  unfold sortByCount
  induction stats with
  | nil => rfl
  | cons a l ih =>
    rw [List.insertionSort, filter_count_orderedInsert, ih]
    by_cases h : a.2.count = n <;> simp [List.filter, h]

theorem sliceFromStart_eq_take {α : Type} (xs : List α) (limit : Int) :
    ∃ k, sliceFromStart xs limit = xs.take k ∧
      (0 ≤ limit → k = min limit.toNat xs.length) ∧
      (limit < 0 → k = xs.length - limit.natAbs) := by
  unfold sliceFromStart
  refine ⟨_, rfl, ?_, ?_⟩
  · intro h
    simp only [not_lt.mpr h, if_false]
    omega
  · intro h
    simp only [h, if_true]
    omega

/-! ## `exportStats`: the file name determines the clock reading -/

theorem digitChar_value (k : Nat) (hk : k < 10) : (Nat.digitChar k).toNat - 48 = k := by
  interval_cases k <;> rfl

theorem digitsValue_toDigitsCore (fuel n : Nat) (ds : List Char) (h : n < fuel) :
    digitsValue 0 (Nat.toDigitsCore 10 fuel n ds) = digitsValue n ds := by
  induction fuel generalizing n ds with
  | zero => omega
  | succ fuel ih =>
    unfold Nat.toDigitsCore
    simp only
    by_cases h0 : n / 10 = 0
    · simp only [h0, if_true]
      have hn : n % 10 = n := Nat.mod_eq_of_lt (by omega)
      have hv := digitChar_value (n % 10) (Nat.mod_lt n (by decide))
      simp only [digitsValue, List.foldl, hv, Nat.zero_mul, Nat.zero_add]
      rw [hn]
    · simp only [h0, if_false]
      rw [ih (n / 10) _ (by omega)]
      simp only [digitsValue, List.foldl, digitChar_value _ (Nat.mod_lt n (by decide))]
      congr 1
      omega

theorem toString_injective (a b : Nat) (h : toString a = toString b) : a = b := by
  have hd : Nat.toDigits 10 a = Nat.toDigits 10 b := congrArg String.data h
  have ha := digitsValue_toDigitsCore (a + 1) a [] (Nat.lt_succ_self a)
  have hb := digitsValue_toDigitsCore (b + 1) b [] (Nat.lt_succ_self b)
  unfold Nat.toDigits at hd
  rw [hd, hb] at ha
  simpa [digitsValue] using ha.symm

theorem exportFileName_injective (logDir : String) (a b : Nat)
    (h : exportFileName logDir a = exportFileName logDir b) : a = b := by
  unfold exportFileName at h
  have hd := congrArg String.data h
  simp only [String.data_append] at hd
  have h1 := List.append_cancel_left hd
  have h2 := List.append_cancel_right h1
  have h3 := List.append_cancel_left h2
  exact toString_injective a b (String.ext h3)

/-! ## The scan loop: basic facts -/

@[simp] theorem replies_append (xs ys : List Event) :
    replies (xs ++ ys) = replies xs ++ replies ys := by
  induction xs with
  | nil => rfl
  | cons e es ih => cases e <;> simp [replies, ih]

@[simp] theorem trackCalls_append (xs ys : List Event) :
    trackCalls (xs ++ ys) = trackCalls xs ++ trackCalls ys := by
  induction xs with
  | nil => rfl
  | cons e es ih => cases e <;> simp [trackCalls, ih]

theorem scan_of_not_acceptable (rt : JSRuntime) (now : String) (message : Message)
    (content : String) (threshold : ℚ) (store : Store) (polluted : Bool) (stats : Aggregate)
    (h : ∀ x ∈ store, acceptable rt content threshold x = false) :
    replies (scan rt now message content threshold store polluted stats).events = [] ∧
      trackCalls (scan rt now message content threshold store polluted stats).events = [] ∧
      (scan rt now message content threshold store polluted stats).stats = stats := by
  induction store with
  | nil => simp [scan, replies, trackCalls]
  | cons hd tl ih =>
    obtain ⟨pattern, response⟩ := hd
    have hhd := h (pattern, response) (List.mem_cons_self _ _)
    have htl := ih (fun x hx => h x (List.mem_cons_of_mem _ hx))
    unfold scan
    unfold acceptable at hhd
    cases hm : rt.regexMatch pattern content with
    | throws m => simpa [HandlerResult.after, replies, trackCalls] using htl
    | noMatch => simpa [HandlerResult.after, replies, trackCalls] using htl
    | found index length =>
      simp only [hm, decide_eq_false_iff_not] at hhd
      have hlt : ¬ (confidenceOf content index length ≥ threshold) := hhd
      simpa [hlt, HandlerResult.after, replies, trackCalls] using htl

theorem scan_of_acceptable (rt : JSRuntime) (now : String) (message : Message)
    (content : String) (threshold : ℚ) (pre : Store) (entry : String × String)
    (post : Store) (polluted : Bool) (stats : Aggregate)
    (hrec : ∀ c, (trackPatternMatch now message entry.1 c polluted stats).threw = false)
    (hpre : ∀ x ∈ pre, acceptable rt content threshold x = false)
    (hacc : acceptable rt content threshold entry = true) :
    replies (scan rt now message content threshold (pre ++ entry :: post) polluted stats).events
        = [entry.2] ∧
      (trackCalls
        (scan rt now message content threshold (pre ++ entry :: post) polluted stats).events).map
          Prod.fst = [entry.1] := by
  induction pre with
  | nil =>
    obtain ⟨pattern, response⟩ := entry
    unfold acceptable at hacc
    simp only [List.nil_append]
    unfold scan
    cases hm : rt.regexMatch pattern content with
    | throws m => simp [hm] at hacc
    | noMatch => simp [hm] at hacc
    | found index length =>
      simp only [hm, decide_eq_true_eq] at hacc
      have hge : confidenceOf content index length ≥ threshold := hacc
      have hthrew := hrec (confidenceOf content index length)
      simp only at hthrew
      simp [hge, hthrew, replies, trackCalls]
  | cons hd tl ih =>
    obtain ⟨pattern, response⟩ := hd
    have hhd := hpre (pattern, response) (List.mem_cons_self _ _)
    have htl := ih (fun x hx => hpre x (List.mem_cons_of_mem _ hx))
    simp only [List.cons_append]
    unfold scan
    unfold acceptable at hhd
    cases hm : rt.regexMatch pattern content with
    | throws m => simpa [HandlerResult.after, replies, trackCalls] using htl
    | noMatch => simpa [HandlerResult.after, replies, trackCalls] using htl
    | found index length =>
      simp only [hm, decide_eq_false_iff_not] at hhd
      have hlt : ¬ (confidenceOf content index length ≥ threshold) := hhd
      simpa [hlt, HandlerResult.after, replies, trackCalls] using htl

theorem scan_first_events (rt : JSRuntime) (now : String) (message : Message)
    (content : String) (threshold : ℚ) (store : Store) (polluted : Bool) (stats : Aggregate) :
    (replies (scan rt now message content threshold store polluted stats).events).head?
        = (firstAcceptable rt content threshold store).map Prod.snd ∧
      ((trackCalls (scan rt now message content threshold store polluted stats).events).head?).map
          Prod.fst
        = (firstAcceptable rt content threshold store).map Prod.fst := by
  induction store with
  | nil => simp [scan, replies, trackCalls, firstAcceptable]
  | cons hd tl ih =>
    obtain ⟨pattern, response⟩ := hd
    unfold scan firstAcceptable
    unfold firstAcceptable at ih
    cases hm : rt.regexMatch pattern content with
    | throws m =>
      have hacc : acceptable rt content threshold (pattern, response) = false := by
        simp [acceptable, hm]
      simpa [HandlerResult.after, replies, trackCalls, List.find?, hacc] using ih
    | noMatch =>
      have hacc : acceptable rt content threshold (pattern, response) = false := by
        simp [acceptable, hm]
      simpa [HandlerResult.after, replies, trackCalls, List.find?, hacc] using ih
    | found index length =>
      by_cases hge : confidenceOf content index length ≥ threshold
      · have hacc : acceptable rt content threshold (pattern, response) = true := by
          simp only [acceptable, hm, decide_eq_true_eq]
          exact hge
        simp only [hge, if_true, List.find?, hacc]
        split <;> simp [HandlerResult.after, replies, trackCalls]
      · have hacc : acceptable rt content threshold (pattern, response) = false := by
          simp only [acceptable, hm, decide_eq_false_iff_not]
          exact hge
        simpa [hge, HandlerResult.after, replies, trackCalls, List.find?, hacc] using ih

theorem scan_trackCalls (rt : JSRuntime) (now : String) (message : Message)
    (content : String) (threshold : ℚ) (store : Store) (polluted : Bool) (stats : Aggregate)
    (pattern : String) (confidence : ℚ)
    (h : (pattern, confidence) ∈
      trackCalls (scan rt now message content threshold store polluted stats).events) :
    ∃ response index length, (pattern, response) ∈ store ∧
      rt.regexMatch pattern content = .found index length ∧
      confidence = confidenceOf content index length ∧ threshold ≤ confidence := by
  induction store generalizing polluted stats with
  | nil => simp [scan, trackCalls] at h
  | cons hd tl ih =>
    obtain ⟨p, r⟩ := hd
    have lift : (∃ response index length, (pattern, response) ∈ tl ∧
        rt.regexMatch pattern content = .found index length ∧
        confidence = confidenceOf content index length ∧ threshold ≤ confidence) →
        ∃ response index length, (pattern, response) ∈ (p, r) :: tl ∧
        rt.regexMatch pattern content = .found index length ∧
        confidence = confidenceOf content index length ∧ threshold ≤ confidence := by
      rintro ⟨response, index, length, hmem, hrest⟩
      exact ⟨response, index, length, List.mem_cons_of_mem _ hmem, hrest⟩
    unfold scan at h
    cases hm : rt.regexMatch p content with
    | throws m =>
      simp only [hm, HandlerResult.after, trackCalls_append, trackCalls, List.nil_append] at h
      exact lift (ih polluted stats h)
    | noMatch =>
      simp only [hm, HandlerResult.after, trackCalls_append, trackCalls, List.nil_append] at h
      exact lift (ih polluted stats h)
    | found index length =>
      simp only [hm] at h
      by_cases hge : confidenceOf content index length ≥ threshold
      · have here : ∃ response i l, (p, response) ∈ (p, r) :: tl ∧
            rt.regexMatch p content = .found i l ∧
            confidenceOf content index length = confidenceOf content i l ∧
            threshold ≤ confidenceOf content index length :=
          ⟨r, index, length, List.mem_cons_self _ _, hm, rfl, hge⟩
        simp only [hge, if_true] at h
        split at h
        · simp only [HandlerResult.after, trackCalls_append, trackCalls, List.mem_append,
            List.mem_singleton, List.cons_append, List.nil_append, List.mem_cons] at h
          rcases h with h | h
          · cases h
            exact here
          · exact lift (ih _ _ h)
        · simp only [trackCalls, List.mem_singleton] at h
          cases h
          exact here
      · simp only [hge, if_false, HandlerResult.after, trackCalls_append, trackCalls,
          List.nil_append] at h
        exact lift (ih polluted stats h)

theorem confidenceThreshold_values (isBotMention : Bool) (content : String) :
    confidenceThreshold isBotMention content = 3 / 5 ∨
      confidenceThreshold isBotMention content = 17 / 20 := by
  unfold confidenceThreshold
  split
  · exact Or.inl rfl
  · exact Or.inr rfl

theorem adminCommand_of_short (message : Message) (content : String)
    (h : content.length < 3) : adminCommand message content = none := by
  have h1 : content ≠ "!pattern-report" := by
    intro hc
    rw [hc] at h
    exact absurd h (by decide)
  have h2 : content ≠ "!export-stats" := by
    intro hc
    rw [hc] at h
    exact absurd h (by decide)
  have h3 : content ≠ "!top-patterns" := by
    intro hc
    rw [hc] at h
    exact absurd h (by decide)
  unfold adminCommand
  cases message.guild with
  | none => rfl
  | some guild => simp [h1, h2, h3]

theorem leadWordTest_iff (content : String) :
    leadWordTest content = true ↔
      ∃ w ∈ leadWords, ∃ c rest, content.toList = w.toList ++ c :: rest ∧
        isLineTerminator c = false := by
  unfold leadWordTest
  rw [List.any_eq_true]
  constructor
  · rintro ⟨w, hw, h⟩
    rw [Bool.and_eq_true, List.isPrefixOf_iff_prefix] at h
    obtain ⟨⟨t, ht⟩, hdrop⟩ := h
    have hd : List.drop w.length content.toList = t := by
      rw [← ht]
      exact List.drop_left' rfl
    rw [hd] at hdrop
    cases t with
    | nil => simp at hdrop
    | cons c rest =>
      refine ⟨w, hw, c, rest, ht.symm, ?_⟩
      simpa using hdrop
  · rintro ⟨w, hw, c, rest, hc, hterm⟩
    refine ⟨w, hw, ?_⟩
    rw [Bool.and_eq_true, List.isPrefixOf_iff_prefix]
    have hd : List.drop w.length content.toList = c :: rest := by
      rw [hc]
      exact List.drop_left' rfl
    refine ⟨⟨c :: rest, hc.symm⟩, ?_⟩
    rw [hd]
    simp [hterm]

theorem confidenceOf_hello_whole : confidenceOf "hello" 0 5 = 1 := by
  have h1 : (matchedText "hello" 0 5).length = 5 := by decide
  have h2 : "hello".length = 5 := by decide
  rw [confidenceOf, h1, h2]
  norm_num

theorem confidenceOf_hello_part : confidenceOf "hello" 0 4 = 4 / 5 := by
  have h1 : (matchedText "hello" 0 4).length = 4 := by decide
  have h2 : "hello".length = 5 := by decide
  rw [confidenceOf, h1, h2]
  norm_num

theorem confidenceOf_constructor_whole : confidenceOf "constructor" 0 11 = 1 := by
  have h1 : (matchedText "constructor" 0 11).length = 11 := by decide
  have h2 : "constructor".length = 11 := by decide
  rw [confidenceOf, h1, h2]
  norm_num

theorem confidenceOf_constructor_part : confidenceOf "constructor" 0 9 = 9 / 11 := by
  have h1 : (matchedText "constructor" 0 9).length = 9 := by decide
  have h2 : "constructor".length = 11 := by decide
  rw [confidenceOf, h1, h2]
  norm_num

theorem messageCreate_example_events :
    (messageCreate literalRuntime "t1" exampleStore false [] exampleMessage).events
      = [.attempt "hello", .reply "Hi!", .track "hello" 1] := by
  have h1 : literalRuntime.toLowerCase exampleMessage.content = "hello" := by decide
  have h2 : literalRuntime.regexMatch "hello" "hello" = .found 0 5 := by decide
  have h4 : confidenceThreshold exampleMessage.mentionsBot "hello" = 3 / 5 := by
    simp [confidenceThreshold, exampleMessage]
  have h5 : ¬ ("hello".length < 3) := by decide
  have h6 : exampleMessage.authorBot = false := rfl
  have h7 : adminCommand exampleMessage "hello" = none := rfl
  have t1 : ∀ c, (trackPatternMatch "t1" exampleMessage "hello" c false []).threw = false := by
    intro c
    rfl
  have q1 : (3 / 5 : ℚ) ≤ 1 := by norm_num
  simp [messageCreate, exampleStore, h6, h7, h1, h5, scan, h2, h4, confidenceOf_hello_whole,
    t1, q1]

/-! ## The claims about the `messageCreate` handler -/

/-- C1 fails on the code: with the store `constructorStore`, nothing recorded
yet and the message "constructor", the first pattern of the store that matches
at the threshold is "constructor" and the later "construct" matches too; the
handler replies "C!" for the first, the call of `trackPatternMatch` for it throws
and is caught, the scan goes on, and the handler replies "D!" as well and records
the pattern "construct", the only entry of the aggregate afterwards. -/
theorem messageCreate_constructor_pattern :
    firstAcceptable literalRuntime "constructor" (3 / 5) constructorStore
        = some ("constructor", "C!") ∧
      acceptable literalRuntime "constructor" (3 / 5) ("construct", "D!") = true ∧
      (messageCreate literalRuntime "t1" constructorStore false [] constructorMessage).events
        = [.attempt "constructor", .reply "C!", .track "constructor" 1, .caught "constructor",
           .attempt "construct", .reply "D!", .track "construct" (9 / 11)] ∧
      replies (messageCreate literalRuntime "t1" constructorStore false []
          constructorMessage).events = ["C!", "D!"] ∧
      trackCalls (messageCreate literalRuntime "t1" constructorStore false []
          constructorMessage).events = [("constructor", 1), ("construct", 9 / 11)] ∧
      (messageCreate literalRuntime "t1" constructorStore false [] constructorMessage).stats
        = [("construct",
            { count := 1, examples := ["constructor"], lastMatched := "t1",
              channels := some [("41771983423143937", { name := "general", count := 1 })],
              users := some [("80351110224678912", { name := "ann", count := 1 })] })] := by
  have h1 : literalRuntime.toLowerCase constructorMessage.content = "constructor" := by decide
  have h2 : literalRuntime.regexMatch "constructor" "constructor" = .found 0 11 := by decide
  have h3 : literalRuntime.regexMatch "construct" "constructor" = .found 0 9 := by decide
  have h4 : confidenceThreshold constructorMessage.mentionsBot "constructor" = 3 / 5 := by
    simp [confidenceThreshold, constructorMessage, exampleMessage]
  have h5 : ¬ ("constructor".length < 3) := by decide
  have h6 : constructorMessage.authorBot = false := rfl
  have h7 : adminCommand constructorMessage "constructor" = none := rfl
  have t1 : ∀ c, trackPatternMatch "t1" constructorMessage "constructor" c false []
      = { stats := [], threw := true, polluted := false } := by
    intro c
    rfl
  have t2 : ∀ c, trackPatternMatch "t1" constructorMessage "construct" c false []
      = { stats := [("construct",
            { count := 1, examples := ["constructor"], lastMatched := "t1",
              channels := some [("41771983423143937", { name := "general", count := 1 })],
              users := some [("80351110224678912", { name := "ann", count := 1 })] })],
          threw := false, polluted := false } := by
    intro c
    rfl
  have q1 : (3 / 5 : ℚ) ≤ 1 := by norm_num
  have q2 : (3 / 5 : ℚ) ≤ 9 / 11 := by norm_num
  have hres : messageCreate literalRuntime "t1" constructorStore false [] constructorMessage
      = { stats := [("construct",
            { count := 1, examples := ["constructor"], lastMatched := "t1",
              channels := some [("41771983423143937", { name := "general", count := 1 })],
              users := some [("80351110224678912", { name := "ann", count := 1 })] })],
          polluted := false,
          events := [.attempt "constructor", .reply "C!", .track "constructor" 1,
            .caught "constructor", .attempt "construct", .reply "D!",
            .track "construct" (9 / 11)],
          matchFound := true } := by
    simp [messageCreate, constructorStore, h6, h7, h1, h5, scan, h2, h3, h4,
      confidenceOf_constructor_whole, confidenceOf_constructor_part, HandlerResult.after,
      t1, t2, q1, q2]
  refine ⟨?_, ?_, ?_, ?_, ?_, ?_⟩
  · simp [firstAcceptable, constructorStore, List.find?, acceptable, h2,
      confidenceOf_constructor_whole, q1]
  · simp [acceptable, h3, confidenceOf_constructor_part, q2]
  · rw [hres]
  · rw [hres]
    rfl
  · rw [hres]
    rfl
  · rw [hres]

/-- C2: every call of `trackPatternMatch` made by the `messageCreate` handler is
for a pattern of the store whose regular expression matches the lower-cased
content, of length at least 3, with a confidence that reaches the threshold
(0.6 or 0.85); that confidence is the length of the matched text divided by the
length of the content, it is positive and it is at most 1. -/
theorem messageCreate_confidence (rt : JSRuntime) (now : String) (store : Store)
    (polluted : Bool) (stats : Aggregate) (message : Message) (pattern : String) (confidence : ℚ)
    (h : (pattern, confidence) ∈
      trackCalls (messageCreate rt now store polluted stats message).events) :
    3 ≤ (rt.toLowerCase message.content).length ∧
      ∃ response index length, (pattern, response) ∈ store ∧
        rt.regexMatch pattern (rt.toLowerCase message.content) = .found index length ∧
        confidence = ((matchedText (rt.toLowerCase message.content) index length).length : ℚ)
          / ((rt.toLowerCase message.content).length : ℚ) ∧
        confidenceThreshold message.mentionsBot (rt.toLowerCase message.content) ≤ confidence ∧
        (confidenceThreshold message.mentionsBot (rt.toLowerCase message.content) = 3 / 5 ∨
          confidenceThreshold message.mentionsBot (rt.toLowerCase message.content) = 17 / 20) ∧
        0 < confidence ∧ confidence ≤ 1 := by
  unfold messageCreate at h
  by_cases hbot : message.authorBot = true
  · simp [hbot, trackCalls] at h
  · simp only [hbot, Bool.false_eq_true, if_false] at h
    cases hadm : adminCommand message (rt.toLowerCase message.content) with
    | some command => simp [hadm, trackCalls] at h
    | none =>
      simp only [hadm] at h
      by_cases hshort : (rt.toLowerCase message.content).length < 3
      · simp [hshort, trackCalls] at h
      · simp only [hshort, if_false] at h
        have hlen : 3 ≤ (rt.toLowerCase message.content).length := Nat.le_of_not_lt hshort
        obtain ⟨response, index, length, hmem, hm, hc, hthr⟩ :=
          scan_trackCalls rt now message _ _ store polluted stats pattern confidence h
        have hvals := confidenceThreshold_values message.mentionsBot
          (rt.toLowerCase message.content)
        have hpos : 0 < confidence := by
          rcases hvals with hv | hv
          · rw [hv] at hthr
            linarith
          · rw [hv] at hthr
            linarith
        have hle : (matchedText (rt.toLowerCase message.content) index length).length
            ≤ (rt.toLowerCase message.content).length := by
          unfold matchedText
          calc ((List.drop index (rt.toLowerCase message.content).toList).take length).length
              ≤ (List.drop index (rt.toLowerCase message.content).toList).length :=
                List.length_take_le' _ _
            _ ≤ (rt.toLowerCase message.content).toList.length := by
                rw [List.length_drop]
                exact Nat.sub_le _ _
            _ = (rt.toLowerCase message.content).length := rfl
        have hposlen : (0 : ℚ) < ((rt.toLowerCase message.content).length : ℚ) := by
          exact_mod_cast (by omega : 0 < (rt.toLowerCase message.content).length)
        refine ⟨hlen, response, index, length, hmem, hm, hc, hthr, hvals, hpos, ?_⟩
        rw [hc]
        unfold confidenceOf
        rw [div_le_one hposlen]
        exact_mod_cast hle

/-- C6: for a message whose lower-cased content has fewer than 3 characters the
`messageCreate` handler does nothing: no match is attempted, no response is
sent, `trackPatternMatch` is not called and the statistics aggregate is the one
it was, whatever the store holds and whether or not the bot is mentioned. -/
theorem messageCreate_short_content (rt : JSRuntime) (now : String) (store : Store)
    (polluted : Bool) (stats : Aggregate) (message : Message)
    (hshort : (rt.toLowerCase message.content).length < 3) :
    (messageCreate rt now store polluted stats message).events = [] ∧
      attempts (messageCreate rt now store polluted stats message).events = [] ∧
      replies (messageCreate rt now store polluted stats message).events = [] ∧
      trackCalls (messageCreate rt now store polluted stats message).events = [] ∧
      (messageCreate rt now store polluted stats message).stats = stats := by
  have hev : (messageCreate rt now store polluted stats message).events = [] ∧
      (messageCreate rt now store polluted stats message).stats = stats := by
    unfold messageCreate
    by_cases hbot : message.authorBot = true
    · simp [hbot]
    · simp [hbot, adminCommand_of_short message _ hshort, hshort]
  refine ⟨hev.1, ?_, ?_, ?_, hev.2⟩ <;> rw [hev.1] <;> rfl

/-- Witness of C2: the handler accepts the pattern "hello" for the message
"Hello", with confidence 1. -/
theorem messageCreate_confidence_witness :
    3 ≤ (literalRuntime.toLowerCase exampleMessage.content).length ∧
      ∃ response index length, ("hello", response) ∈ exampleStore ∧
        literalRuntime.regexMatch "hello" (literalRuntime.toLowerCase exampleMessage.content)
          = .found index length ∧
        (1 : ℚ) = ((matchedText (literalRuntime.toLowerCase exampleMessage.content)
            index length).length : ℚ)
          / ((literalRuntime.toLowerCase exampleMessage.content).length : ℚ) ∧
        confidenceThreshold exampleMessage.mentionsBot
          (literalRuntime.toLowerCase exampleMessage.content) ≤ 1 ∧
        (confidenceThreshold exampleMessage.mentionsBot
            (literalRuntime.toLowerCase exampleMessage.content) = 3 / 5 ∨
          confidenceThreshold exampleMessage.mentionsBot
            (literalRuntime.toLowerCase exampleMessage.content) = 17 / 20) ∧
        (0 : ℚ) < 1 ∧ (1 : ℚ) ≤ 1 :=
  messageCreate_confidence literalRuntime "t1" exampleStore false [] exampleMessage "hello" 1
    (by rw [messageCreate_example_events]; simp [trackCalls])

/-- Witness of C6: a message "Hi" is left alone. -/
theorem messageCreate_short_content_witness :
    (messageCreate literalRuntime "t1" exampleStore false []
      { exampleMessage with content := "Hi" }).events = [] :=
  (messageCreate_short_content literalRuntime "t1" exampleStore false []
    { exampleMessage with content := "Hi" } (by decide)).1

/-- C3, as stated, fails: the content "what", line break, "now" begins with the
lead word "what" followed by more characters, it has no question mark and the
bot is not addressed, yet the threshold is 0.85 and not 0.6, because `.` does
not match the line break. -/
theorem confidenceThreshold_line_break :
    3 ≤ "what\nnow".length ∧
      (∃ w ∈ leadWords, ∃ rest, rest ≠ [] ∧ "what\nnow".toList = w.toList ++ rest) ∧
      confidenceThreshold false "what\nnow" = 17 / 20 ∧
      confidenceThreshold false "what\nnow" ≠ 3 / 5 := by
  have hq : isQuestion "what\nnow" = false := by decide
  have ht : confidenceThreshold false "what\nnow" = 17 / 20 := by
    simp [confidenceThreshold, hq]
  refine ⟨by decide, ⟨"what", by decide, "\nnow".toList, by decide, by decide⟩, ht, ?_⟩
  rw [ht]
  norm_num

/-- C3, amended: the threshold of the `messageCreate` handler is 0.6 exactly
when the bot is mentioned, or the content has a question mark, or the content
begins with one of the seventeen lead words followed by a character that is not
a line terminator; it is 0.85 in every other case; and for a message that
reaches the scan (content of at least 3 characters) the handler runs the scan
over the whole store with that one threshold, which no pattern enters. -/
theorem confidenceThreshold_spec (rt : JSRuntime) (now : String) (store : Store)
    (polluted : Bool) (stats : Aggregate) (message : Message) (isBotMention : Bool) (content : String) :
    (confidenceThreshold isBotMention content = 3 / 5 ↔
        (isBotMention = true ∨ '?' ∈ content.toList ∨
          ∃ w ∈ leadWords, ∃ c rest, content.toList = w.toList ++ c :: rest ∧
            isLineTerminator c = false)) ∧
      (confidenceThreshold isBotMention content ≠ 3 / 5 →
        confidenceThreshold isBotMention content = 17 / 20) ∧
      (message.authorBot = false →
        adminCommand message (rt.toLowerCase message.content) = none →
        3 ≤ (rt.toLowerCase message.content).length →
        messageCreate rt now store polluted stats message =
          scan rt now message (rt.toLowerCase message.content)
            (confidenceThreshold message.mentionsBot (rt.toLowerCase message.content))
            store polluted stats) := by
  refine ⟨?_, ?_, ?_⟩
  · have hne : ¬ ((17 : ℚ) / 20 = 3 / 5) := by norm_num
    unfold confidenceThreshold isQuestion
    rw [← leadWordTest_iff]
    by_cases hb : isBotMention = true
    · simp [hb]
    · by_cases hq : '?' ∈ content.data
      · simp [hq]
      · by_cases hl : leadWordTest content = true
        · simp [hl]
        · simp [hb, hq, hl, hne]
  · intro h
    rcases confidenceThreshold_values isBotMention content with h1 | h1
    · exact absurd h1 h
    · exact h1
  · intro hbot hadm hlen
    unfold messageCreate
    simp [hbot, hadm, Nat.not_lt.mpr hlen]

/-- Witness of C3 (amended): the message "Hello" of the examples reaches the
scan, which runs with the threshold of a mention. -/
theorem confidenceThreshold_spec_witness :
    messageCreate literalRuntime "t1" exampleStore false [] exampleMessage =
      scan literalRuntime "t1" exampleMessage (literalRuntime.toLowerCase exampleMessage.content)
        (confidenceThreshold exampleMessage.mentionsBot
          (literalRuntime.toLowerCase exampleMessage.content))
        exampleStore false [] :=
  (confidenceThreshold_spec literalRuntime "t1" exampleStore false [] exampleMessage true
    "hello").2.2 rfl rfl (by decide)

/-- C8 fails on the code: with the aggregate `staleStats`, the message "Hello"
and the example store, the handler replies "Hi!" for the pattern "hello", the
call of `trackPatternMatch` for it throws and is caught, the scan goes on, and
the handler replies "Hey!" and calls `trackPatternMatch` for the pattern "hell":
two responses and two calls for one message. -/
theorem messageCreate_replies_twice :
    (messageCreate literalRuntime "t1" exampleStore false staleStats exampleMessage).events
        = [.attempt "hello", .reply "Hi!", .track "hello" 1, .caught "hello",
           .attempt "hell", .reply "Hey!", .track "hell" (4 / 5)] ∧
      replies (messageCreate literalRuntime "t1" exampleStore false staleStats exampleMessage).events
        = ["Hi!", "Hey!"] ∧
      trackCalls (messageCreate literalRuntime "t1" exampleStore false staleStats exampleMessage).events
        = [("hello", 1), ("hell", 4 / 5)] := by
  have h1 : literalRuntime.toLowerCase exampleMessage.content = "hello" := by decide
  have h2 : literalRuntime.regexMatch "hello" "hello" = .found 0 5 := by decide
  have h3 : literalRuntime.regexMatch "hell" "hello" = .found 0 4 := by decide
  have h4 : confidenceThreshold exampleMessage.mentionsBot "hello" = 3 / 5 := by
    simp [confidenceThreshold, exampleMessage]
  have h5 : ¬ ("hello".length < 3) := by decide
  have h6 : exampleMessage.authorBot = false := rfl
  have h7 : adminCommand exampleMessage "hello" = none := rfl
  have t1 : ∀ c, trackPatternMatch "t1" exampleMessage "hello" c false staleStats
      = { stats := [("hello", { count := 4, examples := ["hello"], lastMatched := "t1",
                                channels := none, users := none })],
          threw := true, polluted := false } := by
    intro c
    rfl
  have t2 : ∀ c, (trackPatternMatch "t1" exampleMessage "hell" c false
      [("hello", { count := 4, examples := ["hello"], lastMatched := "t1",
                   channels := none, users := none })]).threw = false := by
    intro c
    rfl
  have q1 : (3 / 5 : ℚ) ≤ 1 := by norm_num
  have q2 : (3 / 5 : ℚ) ≤ 4 / 5 := by norm_num
  have hev : (messageCreate literalRuntime "t1" exampleStore false staleStats exampleMessage).events
      = [.attempt "hello", .reply "Hi!", .track "hello" 1, .caught "hello",
         .attempt "hell", .reply "Hey!", .track "hell" (4 / 5)] := by
    simp [messageCreate, exampleStore, h6, h7, h1, h5, scan, h2, h3, h4,
      confidenceOf_hello_whole, confidenceOf_hello_part, HandlerResult.after, t1, t2, q1, q2]
  refine ⟨hev, ?_, ?_⟩ <;> rw [hev] <;> rfl

/-! ## The claim about `loadQuestions` -/

/-- C5, as stated, fails: both records of `duplicateFile` have a compiling
pattern and a non-empty response and both raise the loaded counter, but the
store does not hold the pattern mapped to the response of the first one, and the
loaded count, 2, is not the number of patterns of the store, 1. -/
theorem loadQuestions_duplicate_pattern :
    loadable literalRuntime (.props (.text "hello") (.text "Hi!")) = some ("hello", "Hi!") ∧
      loadQuestions literalRuntime (some [duplicateFile]) []
        = { questionsCache := [("hello", "Hey!")], loadedPatterns := 2, invalidPatterns := 0 } ∧
      lookup "hello" (loadQuestions literalRuntime (some [duplicateFile]) []).questionsCache
        ≠ some "Hi!" ∧
      (loadQuestions literalRuntime (some [duplicateFile]) []).loadedPatterns
        ≠ (loadQuestions literalRuntime (some [duplicateFile]) []).questionsCache.length := by
  decide

/-- C5, amended: when `loadQuestions` goes through the records of the files it
reads, each loadable record is assigned to the store under its pattern and
raises the loaded counter by one, and each other record leaves the store as it
is and raises the invalid counter by one; no record stops the loop, so the
loaded count is the number of loadable records and the invalid count the number
of the others; the store ends up mapping each pattern to the response of the
last loadable record that carries it; and when the loadable records have
pairwise different patterns and the store starts empty, the store holds exactly
these records in order, so every one is mapped to its own response and the
loaded count is the number of patterns in the store. -/
theorem loadQuestions_spec (rt : JSRuntime) (files : List DirFile) (cache : Store) :
    (loadQuestions rt (some files) cache).loadedPatterns
        = ((recordsOf files).filterMap (loadable rt)).length ∧
      (loadQuestions rt (some files) cache).invalidPatterns
        = ((recordsOf files).filter fun r => (loadable rt r).isNone).length ∧
      (loadQuestions rt (some files) cache).loadedPatterns
          + (loadQuestions rt (some files) cache).invalidPatterns
        = (recordsOf files).length ∧
      (∀ p, lookup p (loadQuestions rt (some files) cache).questionsCache
        = (((((recordsOf files).filterMap (loadable rt)).filter
              fun x => decide (x.1 = p)).getLast?).map Prod.snd).or (lookup p cache)) ∧
      (cache = [] → (((recordsOf files).filterMap (loadable rt)).map Prod.fst).Nodup →
        (loadQuestions rt (some files) cache).questionsCache
            = (recordsOf files).filterMap (loadable rt) ∧
          (∀ p r, (p, r) ∈ (recordsOf files).filterMap (loadable rt) →
            lookup p (loadQuestions rt (some files) cache).questionsCache = some r) ∧
          (loadQuestions rt (some files) cache).loadedPatterns
            = (loadQuestions rt (some files) cache).questionsCache.length) ∧
      (∀ st record p r, loadable rt record = some (p, r) →
        processRecord rt st record =
          { questionsCache := assign p r st.questionsCache,
            loadedPatterns := st.loadedPatterns + 1,
            invalidPatterns := st.invalidPatterns }) ∧
      (∀ st record, loadable rt record = none →
        processRecord rt st record =
          { questionsCache := st.questionsCache,
            loadedPatterns := st.loadedPatterns,
            invalidPatterns := st.invalidPatterns + 1 }) := by
  have hload : loadQuestions rt (some files) cache
      = loadedState rt { questionsCache := cache, loadedPatterns := 0, invalidPatterns := 0 }
          (recordsOf files) := by
    unfold loadQuestions
    exact foldl_processFile rt _ files
  have hcount : ∀ records : List RecordValue,
      (records.filterMap (loadable rt)).length
          + (records.filter fun r => (loadable rt r).isNone).length = records.length := by
    intro records
    induction records with
    | nil => rfl
    | cons r rs ih =>
      cases h : loadable rt r with
      | none =>
        simp [List.filter, h]
        omega
      | some x =>
        simp [List.filter, h]
        omega
  refine ⟨?_, ?_, ?_, ?_, ?_, ?_, ?_⟩
  · rw [hload]
    simp [loadedState]
  · rw [hload]
    simp [loadedState]
  · rw [hload]
    simp only [loadedState, Nat.zero_add]
    exact hcount _
  · intro p
    rw [hload]
    exact lookup_assignAll cache _ p
  · intro hc hnodup
    rw [hload]
    subst hc
    have hstore : (loadedState rt
        { questionsCache := [], loadedPatterns := 0, invalidPatterns := 0 }
        (recordsOf files)).questionsCache = (recordsOf files).filterMap (loadable rt) :=
      assignAll_of_nodup _ hnodup
    refine ⟨hstore, ?_, ?_⟩
    · intro p r hmem
      rw [hstore]
      exact lookup_of_mem_of_nodup _ p r hnodup hmem
    · rw [hstore]
      simp [loadedState]
  · intro st record p r h
    exact processRecord_of_loadable rt st record p r h
  · intro st record h
    exact processRecord_of_not_loadable rt st record h

/-- Witness of C5 (amended): the file of the counterexample, one record with a
pattern that does not compile in the example runtime, and a metadata file. -/
theorem loadQuestions_spec_witness :
    (loadQuestions literalRuntime
      (some [duplicateFile,
        { name := "broken.json", parsed := some [("k", .props (.text "(") (.text "x"))] },
        { name := "!meta.json", parsed := some [("k", .props (.text "ok") (.text "x"))] }])
      []).loadedPatterns = 2 :=
  (loadQuestions_spec literalRuntime
    [duplicateFile,
      { name := "broken.json", parsed := some [("k", .props (.text "(") (.text "x"))] },
      { name := "!meta.json", parsed := some [("k", .props (.text "ok") (.text "x"))] }]
    []).1.trans (by decide)

/-! ## The claims about `PatternStats` -/

/-- For a pattern that names no property of `Object.prototype` and is not
"lastMatched": from an aggregate without an entry for it, after a sequence of
calls of `trackPatternMatch` of which `N ≥ 1` are made for it, its entry has
`count = N`, its examples are the message contents of the first `min N 5` of
these calls, and `lastMatched` is the clock reading of the last of them. -/
theorem entry_of_plain_pattern (pattern : String) (s : StatsState) (calls : List TrackCall)
    (hnone : lookup pattern s.stats = none)
    (hplain : pattern ∉ objectPrototypeNames) (hlast : pattern ≠ "lastMatched")
    (hN : 1 ≤ (callsFor pattern calls).length) :
    ∃ e, lookup pattern (trackAll calls s).stats = some e ∧
      e.count = (callsFor pattern calls).length ∧
      e.examples = ((callsFor pattern calls).take (min (callsFor pattern calls).length 5)).map
        (fun k => k.message.content) ∧
      e.examples.length = min (callsFor pattern calls).length 5 ∧
      (callsFor pattern calls).getLast?.map (fun k => k.now) = some e.lastMatched := by
  have hname : ∀ polluted, inheritedTruthy polluted pattern = false := by
    intro polluted
    unfold inheritedTruthy
    simp [hplain, hlast]
  have hne : callsFor pattern calls ≠ [] := by
    intro h
    rw [h] at hN
    simp at hN
  obtain ⟨e, ch, us, hl, _, _, hcount, hex, hlastm⟩ :=
    (entry_after_calls pattern s hnone hname calls).2 hne
  have htake : (callsFor pattern calls).take (min (callsFor pattern calls).length 5)
      = (callsFor pattern calls).take 5 := by
    rcases Nat.le_total (callsFor pattern calls).length 5 with h | h
    · rw [Nat.min_eq_left h, List.take_of_length_le h, List.take_of_length_le (le_refl _)]
    · rw [Nat.min_eq_right h]
  refine ⟨e, hl, hcount, ?_, ?_, hlastm⟩
  · rw [htake]
    exact hex
  · rw [hex]
    simp [Nat.min_comm]

/-- C4 fails on the code: on the aggregate of a process that has recorded
nothing, which has no entry for the pattern "constructor", one call of
`trackPatternMatch` for that pattern throws and leaves the aggregate empty, so
after `N = 1` calls there is no entry for the pattern, let alone one with
`count = 1`. -/
theorem trackPatternMatch_inherited_name :
    lookup "constructor" freshState.stats = none ∧
      (callsFor "constructor" [constructorCall]).length = 1 ∧
      (trackPatternMatch "t1" constructorMessage "constructor" 1 false []).threw = true ∧
      (trackAll [constructorCall] freshState).stats = [] ∧
      lookup "constructor" (trackAll [constructorCall] freshState).stats = none := by
  refine ⟨rfl, by decide, rfl, rfl, rfl⟩

/-- C10: in an aggregate built by calls of `trackPatternMatch` in a process that
had recorded nothing, every entry has its two dictionaries, the counts of its
channels add up to its count and so do the counts of its users, every channel
and user record has a count of at least 1 and the name given by the first call
that created it; and one more call, for a pattern `P`, leaves the entry of every
other pattern as it was. -/
theorem trackAll_invariant (calls : List TrackCall) (p : String) (e : PatternEntry)
    (hmem : (p, e) ∈ (trackAll calls freshState).stats) :
    (∃ ch us, e.channels = some ch ∧ e.users = some us ∧
        sumCounts ch = e.count ∧ sumCounts us = e.count ∧
        (∀ id sub, (id, sub) ∈ ch →
          1 ≤ sub.count ∧ firstChannelName p id calls = some sub.name) ∧
        (∀ id sub, (id, sub) ∈ us →
          1 ≤ sub.count ∧ firstUserName p id calls = some sub.name)) ∧
      (∀ c : TrackCall, p ≠ c.pattern →
        (p, e) ∈ (trackPatternMatch c.now c.message c.pattern c.confidence
          (trackAll calls freshState).polluted (trackAll calls freshState).stats).stats) ∧
      (∀ (c : TrackCall) (q : String) (d : PatternEntry), q ≠ c.pattern →
        (lookup q (trackPatternMatch c.now c.message c.pattern c.confidence
            (trackAll calls freshState).polluted (trackAll calls freshState).stats).stats
          = lookup q (trackAll calls freshState).stats ∧
          ((q, d) ∈ (trackPatternMatch c.now c.message c.pattern c.confidence
              (trackAll calls freshState).polluted (trackAll calls freshState).stats).stats
            ↔ (q, d) ∈ (trackAll calls freshState).stats))) := by
  obtain ⟨ch, us, hch, hus, hsc, hsu, hc, hu⟩ := (invariant_after_calls calls).1 p e hmem
  refine ⟨⟨ch, us, hch, hus, hsc, hsu, fun id sub h => hc (id, sub) h,
    fun id sub h => hu (id, sub) h⟩, ?_, ?_⟩
  · intro c hp
    exact (trackPatternMatch_mem_other _ _ _ _ _ _ (p, e) hp).mpr hmem
  · intro c q d hq
    exact ⟨trackPatternMatch_lookup_other _ _ _ _ _ _ _ hq,
      trackPatternMatch_mem_other _ _ _ _ _ _ (q, d) hq⟩

/-- Witness of C10: the entry written by one call for "hello". -/
theorem trackAll_invariant_witness :
    ∃ ch us,
      (some [("41771983423143937", ({ name := "general", count := 1 } : SubEntry))]) = some ch ∧
      (some [("80351110224678912", ({ name := "ann", count := 1 } : SubEntry))]) = some us ∧
      sumCounts ch = 1 ∧ sumCounts us = 1 ∧
      (∀ id sub, (id, sub) ∈ ch →
        1 ≤ sub.count ∧ firstChannelName "hello" id [exampleCall] = some sub.name) ∧
      (∀ id sub, (id, sub) ∈ us →
        1 ≤ sub.count ∧ firstUserName "hello" id [exampleCall] = some sub.name) :=
  (trackAll_invariant [exampleCall] "hello"
    { count := 1, examples := ["Hello"], lastMatched := "t1",
      channels := some [("41771983423143937", { name := "general", count := 1 })],
      users := some [("80351110224678912", { name := "ann", count := 1 })] }
    (by decide)).1

/-- C9, as stated, fails: two successful calls of `exportStats` that read the
same value of `Date.now()` return the same file name, not two different ones,
so the second export overwrites the first. -/
theorem exportStats_same_reading :
    (exportStats literalRuntime "logs" 1700000000000 true staleStats).returned
        = some "logs/pattern_stats_export_1700000000000.json" ∧
      ¬ ((exportStats literalRuntime "logs" 1700000000000 true staleStats).returned
        ≠ (exportStats literalRuntime "logs" 1700000000000 true
            (exportStats literalRuntime "logs" 1700000000000 true staleStats).stats).returned) := by
  constructor <;> decide

/-- C9, amended: two successive successful calls of `exportStats`, with no call
of `trackPatternMatch` in between, write the same content, the serialization of
the aggregate, which both leave unchanged; the two file names returned differ
exactly when the two readings of `Date.now()` differ. -/
theorem exportStats_twice (rt : JSRuntime) (logDir : String) (t1 t2 : Nat)
    (stats : Aggregate) :
    (exportStats rt logDir t1 true stats).stats = stats ∧
      (exportStats rt logDir t2 true (exportStats rt logDir t1 true stats).stats).stats
        = stats ∧
      (exportStats rt logDir t1 true stats).returned = some (exportFileName logDir t1) ∧
      (exportStats rt logDir t2 true (exportStats rt logDir t1 true stats).stats).returned
        = some (exportFileName logDir t2) ∧
      (exportStats rt logDir t1 true stats).written
        = some (exportFileName logDir t1, rt.jsonStringify stats) ∧
      (exportStats rt logDir t2 true (exportStats rt logDir t1 true stats).stats).written
        = some (exportFileName logDir t2, rt.jsonStringify stats) ∧
      ((exportStats rt logDir t1 true stats).returned
          ≠ (exportStats rt logDir t2 true (exportStats rt logDir t1 true stats).stats).returned
        ↔ t1 ≠ t2) := by
  refine ⟨rfl, rfl, rfl, rfl, rfl, rfl, ?_⟩
  simp only [exportStats, if_true, ne_eq, Option.some.injEq]
  constructor
  · intro h ht
    exact h (by rw [ht])
  · intro h hf
    exact h (exportFileName_injective logDir t1 t2 hf)

/-- C7, as stated, fails: with the limit `-1` and two patterns in the aggregate,
`getTopPatterns` returns one entry, which is more than the limit. -/
theorem getTopPatterns_negative_limit :
    getTopPatterns (some (-1)) twoStats = [{ pattern := "b", count := 5, lastMatched := "t1" }] ∧
      ¬ (((getTopPatterns (some (-1)) twoStats).length : Int) ≤ -1) := by
  decide

/-- C7, amended: `getTopPatterns(limit)`, with 10 for an omitted limit, returns
the first entries `kept` of a rearrangement `kept ++ rest` of the aggregate:
`min limit (number of patterns)` of them, hence at most `limit`, when the limit
is not negative, and all but the last `-limit` when it is negative; the result
is in order of non-increasing count; each of its entries carries the pattern,
count and `lastMatched` of an entry of the aggregate; no entry left out has a
greater count than a returned one; and the returned entries of any one count are
the first ones of that count in the iteration order of the aggregate, in that
order. -/
theorem getTopPatterns_spec (limit : Option Int) (stats : Aggregate) :
    ∃ kept rest,
      getTopPatterns limit stats = kept.map toTopPattern ∧
      List.Perm (kept ++ rest) stats ∧
      (getTopPatterns limit stats).length = kept.length ∧
      (0 ≤ limit.getD 10 →
        kept.length = min (limit.getD 10).toNat stats.length ∧
          (kept.length : Int) ≤ limit.getD 10) ∧
      (limit.getD 10 < 0 → kept.length = stats.length - (limit.getD 10).natAbs) ∧
      List.Pairwise (fun a b => b.count ≤ a.count) (getTopPatterns limit stats) ∧
      (∀ r ∈ getTopPatterns limit stats, ∃ x ∈ stats, r = toTopPattern x) ∧
      (∀ x ∈ rest, ∀ y ∈ kept, x.2.count ≤ y.2.count) ∧
      (∀ n : Int, ∃ later,
        kept.filter (fun x => decide (x.2.count = n)) ++ later
          = stats.filter (fun x => decide (x.2.count = n))) ∧
      getTopPatterns none stats = getTopPatterns (some 10) stats := by
  obtain ⟨k, hk, hpos, hneg⟩ := sliceFromStart_eq_take (sortByCount stats) (limit.getD 10)
  have hlen : (sortByCount stats).length = stats.length :=
    List.length_insertionSort countDesc stats
  have hperm : List.Perm (sortByCount stats) stats := List.perm_insertionSort countDesc stats
  have hsorted : List.Pairwise countDesc (sortByCount stats) :=
    List.sorted_insertionSort countDesc stats
  have hsplit : (sortByCount stats).take k ++ (sortByCount stats).drop k = sortByCount stats :=
    List.take_append_drop k _
  have hres : getTopPatterns limit stats = ((sortByCount stats).take k).map toTopPattern := by
    unfold getTopPatterns
    rw [hk]
  have hkept : ((sortByCount stats).take k).length = min k stats.length := by
    rw [List.length_take, hlen]
  refine ⟨(sortByCount stats).take k, (sortByCount stats).drop k, hres, ?_, ?_, ?_, ?_, ?_, ?_,
    ?_, ?_, rfl⟩
  · rw [hsplit]
    exact hperm
  · rw [hres, List.length_map]
  · intro h
    rw [hkept, hpos h, hlen]
    constructor
    · omega
    · omega
  · intro h
    rw [hkept, hneg h, hlen]
    omega
  · rw [hres]
    refine List.Pairwise.map toTopPattern (fun a b hab => hab) ?_
    exact List.Pairwise.sublist (List.take_sublist k _) hsorted
  · intro r hr
    rw [hres] at hr
    obtain ⟨x, hx, hxr⟩ := List.mem_map.mp hr
    exact ⟨x, hperm.subset (List.mem_of_mem_take hx), hxr.symm⟩
  · intro x hx y hy
    rw [← hsplit] at hsorted
    exact (List.pairwise_append.mp hsorted).2.2 y hy x hx
  · intro n
    refine ⟨((sortByCount stats).drop k).filter (fun x => decide (x.2.count = n)), ?_⟩
    rw [← List.filter_append, hsplit, filter_count_sortByCount]

/-- Witness of C7 (amended): the aggregate of two patterns, with the limit 1. -/
theorem getTopPatterns_spec_witness :
    ∃ kept rest,
      getTopPatterns (some 1) twoStats = kept.map toTopPattern ∧
      List.Perm (kept ++ rest) twoStats ∧
      (getTopPatterns (some 1) twoStats).length = kept.length ∧
      kept.length = 1 := by
  obtain ⟨kept, rest, h1, h2, h3, h4, _⟩ := getTopPatterns_spec (some 1) twoStats
  exact ⟨kept, rest, h1, h2, h3, (h4 (by decide)).1.trans (by decide)⟩

/-- Witness of C9 (amended): two exports one millisecond apart. -/
theorem exportStats_twice_witness :
    (exportStats literalRuntime "logs" 1700000000000 true staleStats).returned
      ≠ (exportStats literalRuntime "logs" 1700000000001 true
          (exportStats literalRuntime "logs" 1700000000000 true staleStats).stats).returned :=
  (exportStats_twice literalRuntime "logs" 1700000000000 1700000000001
    staleStats).2.2.2.2.2.2.mpr (by decide)

end PatternBot
